import Mathlib

/-!
# Verification of the Fast-BM25 index (`fast_bm25.py`)

This file gives a shallow embedding of the single source file `fast_bm25.py`
(class `BM25`) and proves/refutes the frozen specification claims about it.

Modelling conventions:
* Python dictionaries are modelled as association lists (`List (key × value)`)
  with `alookup` as `dict.__getitem__` / `in`; key order is not observable by
  any modelled operation, so the construction enumerates keys with
  `List.dedup` rather than by insertion order.
* Fallible Python expressions (`ZeroDivisionError` on float division by zero,
  `KeyError`, `IndexError`, a failing `assert`, `ValueError` in `int(..)`)
  are modelled with `Option`: `none` means the call raises.
* Python float arithmetic is idealised as arithmetic in a linear ordered
  field `α`; `math.log` is a parameter `lg : α → α` of the construction,
  instantiated with `Real.log` (the natural logarithm, which `math.log`
  approximates) for the claims whose truth depends on actual logarithms.
-/

namespace FastBM25

/-- Association-list lookup; models Python `dict[key]` (first matching key). -/
def alookup {σ τ : Type} [DecidableEq σ] (k : σ) : List (σ × τ) → Option τ
  | [] => none
  | p :: ps => if p.1 = k then some p.2 else alookup k ps

/-- Float division; Python raises `ZeroDivisionError` when the divisor is 0. -/
def safeDiv {α : Type} [Field α] [DecidableEq α] (x y : α) : Option α :=
  if y = 0 then none else some (x / y)

/-- Left-to-right effectful map; models a Python comprehension in which each
element's computation may raise (the first raise propagates). -/
def mapOpt {σ τ : Type} (f : σ → Option τ) : List σ → Option (List τ)
  | [] => some []
  | x :: xs =>
    match f x, mapOpt f xs with
    | some y, some ys => some (y :: ys)
    | _, _ => none

variable {α : Type} [LinearOrderedField α]

/-- The state of a `BM25` object (lines 46–53 of `fast_bm25.py`):
parameters `k1`, `b`, `alpha`, average document length `avgdl`,
the term→(doc→freq) posting dictionary `t2d`, the term→idf dictionary `idf`
and the document length list `doc_len`.  (`average_idf` is computed during
construction but never read afterwards, so it is not part of the state.) -/
structure BM25 (α : Type) where
  k1 : α
  b : α
  alpha : α
  avgdl : α
  t2d : List (String × List (ℕ × ℕ))
  idf : List (String × α)
  doc_len : List ℕ
deriving DecidableEq

/-- `corpus_size` property (lines 57–59): `len(self.doc_len)`. -/
def BM25.corpus_size (st : BM25 α) : ℕ := st.doc_len.length

/-- The posting dictionary entry of word `w` built by the loop of lines 63–71:
the documents containing `w` (in increasing index order) with the number of
occurrences of `w` in each.  `len (docsOf corpus w)` is the document
frequency of `w`. -/
def docsOf (corpus : List (List String)) (w : String) : List (ℕ × ℕ) :=
  ((List.range corpus.length).filter (fun i => decide (w ∈ corpus.getD i []))).map
    (fun i => (i, (corpus.getD i []).count w))

/-- The key set of the raw `t2d` dictionary: every term occurring in the
corpus (dictionary key order is not observable by any modelled operation). -/
def presentTerms (corpus : List (List String)) : List String :=
  corpus.flatten.dedup

/-- The full `t2d` dictionary after the loop of lines 63–71, before pruning. -/
def t2dRaw (corpus : List (List String)) : List (String × List (ℕ × ℕ)) :=
  (presentTerms corpus).map (fun w => (w, docsOf corpus w))

/-- The idf value computed on line 76:
`math.log(corpus_size - len(docs) + 0.5) - math.log(len(docs) + 0.5)`,
with `math.log` abstracted as `lg`. -/
def idfVal (lg : α → α) (n df : ℕ) : α :=
  lg ((n : α) - (df : α) + 1 / 2) - lg ((df : α) + 1 / 2)

/-- `BM25.__init__` together with `_initialize` (lines 46–94).
For an empty corpus `_initialize` is skipped and the empty state is returned.
Otherwise the posting table is built, terms are pruned by the idf cutoff
(lines 74–84: terms with `idf > alpha` go to the `idf` dict, the others are
deleted from `t2d`), and `average_idf = sum(idf.values())/len(idf)` (line 86)
raises `ZeroDivisionError` — modelled as `none` — when every term was pruned.
The `avgdl` division (line 73) cannot raise here since the corpus is
non-empty. -/
def init (lg : α → α) (corpus : List (List String)) (k1 b alpha : α) :
    Option (BM25 α) :=
  if corpus.isEmpty then
    some { k1 := k1, b := b, alpha := alpha, avgdl := 0,
           t2d := [], idf := [], doc_len := [] }
  else
    let n := corpus.length
    let idf := (t2dRaw corpus).filterMap (fun p =>
      if alpha < idfVal lg n p.2.length then some (p.1, idfVal lg n p.2.length)
      else none)
    if idf.isEmpty then none
    else
      some { k1 := k1, b := b, alpha := alpha,
             avgdl := ((corpus.map List.length).sum : α) /
               ((corpus.map List.length).length : α),
             t2d := (t2dRaw corpus).filter
               (fun p => decide (alpha < idfVal lg n p.2.length)),
             idf := idf,
             doc_len := corpus.map List.length }

/-- The `for token in query` loop of `get_score` (lines 111–119), with the
running score as accumulator.  A token absent from `t2d`, or with no posting
for `index`, is skipped; otherwise `self.idf[token]` is read (a `KeyError`
if absent) and the per-term fraction is added (a `ZeroDivisionError` if its
denominator is zero). -/
def scoreLoop (st : BM25 α) (index : ℕ) (numC denC : α) :
    List String → α → Option α
  | [], score => some score
  | token :: rest, score =>
    match alookup token st.t2d with
    | none => scoreLoop st index numC denC rest score
    | some postings =>
      match alookup index postings with
      | none => scoreLoop st index numC denC rest score
      | some df =>
        match alookup token st.idf with
        | none => none
        | some idf =>
          match safeDiv (idf * (df : α) * numC) ((df : α) + denC) with
          | none => none
          | some frac => scoreLoop st index numC denC rest (score + frac)

/-- `get_score` (lines 96–119).  `self.doc_len[index]` raises `IndexError`
out of range; the `denominator_constant` (line 113) divides
`self.b * self.doc_len[index]` by `self.avgdl`, raising when `avgdl = 0`. -/
def get_score (st : BM25 α) (query : List String) (index : ℕ) : Option α :=
  match st.doc_len.get? index with
  | none => none
  | some len =>
    match safeDiv (st.b * (len : α)) st.avgdl with
    | none => none
    | some frac =>
      scoreLoop st index (st.k1 + 1) (st.k1 * (1 - st.b + frac)) query 0

/-- The candidate document indices of `get_top_n` (lines 140–145): the set of
indices having a posting for some query token present in `t2d`, modelled as
a deduplicated list (Python builds a `set`). -/
def candidates (st : BM25 α) (query : List String) : List ℕ :=
  (query.flatMap (fun token =>
    match alookup token st.t2d with
    | some postings => postings.map Prod.fst
    | none => [])).dedup

/-- Descending-score order on scored candidates, the order `heapq.nlargest`
selects by. -/
def scoreGE (p q : ℕ × α) : Prop := q.2 ≤ p.2

instance : DecidableRel (@scoreGE α _) := fun p q =>
  inferInstanceAs (Decidable (q.2 ≤ p.2))

instance : IsTotal (ℕ × α) (@scoreGE α _) := ⟨fun p q => le_total q.2 p.2⟩

instance : IsTrans (ℕ × α) (@scoreGE α _) :=
  ⟨fun _ _ _ h1 h2 => le_trans h2 h1⟩

/-- `heapq.nlargest n xs key=score`: the `n` largest elements by score in
descending order.  (For `n = 0` CPython returns `[]` without evaluating the
key; see `get_top_n_core`.) -/
def nlargest (n : ℕ) (l : List (ℕ × α)) : List (ℕ × α) :=
  (l.insertionSort scoreGE).take n

/-- Body of `get_top_n` after the assert (lines 140–146): score every
candidate (a raising `get_score` propagates, as the `key` callback raises in
`heapq.nlargest` — except that CPython's `nlargest` with `n ≤ 0` never
evaluates the key), select the `n` highest-scoring candidates, and fetch
`documents[i]` for each. -/
def get_top_n_core {δ : Type} (st : BM25 α) (query : List String)
    (documents : List δ) (n : ℕ) : Option (List δ) :=
  if n = 0 then some []
  else
    match mapOpt (fun i => (get_score st query i).map (fun s => (i, s)))
        (candidates st query) with
    | none => none
    | some scored => mapOpt (fun p => documents.get? p.1) (nlargest n scored)

/-- `get_top_n` (lines 121–146): the assert on line 139 compares
`self.corpus_size` with `len(documents)`; a failing assert is a raised
`AssertionError`, modelled as `none`. -/
def get_top_n {δ : Type} (st : BM25 α) (query : List String)
    (documents : List δ) (n : ℕ) : Option (List δ) :=
  if st.corpus_size = documents.length then get_top_n_core st query documents n
  else none

/-- The JSON object written by `save` (lines 148–154).  JSON stringifies the
integer keys of the inner posting dictionaries; every other field survives
structurally. -/
structure SaveFile (α : Type) where
  k1 : α
  b : α
  alpha : α
  avgdl : α
  t2d : List (String × List (String × ℕ))
  idf : List (String × α)
  doc_len : List ℕ
deriving DecidableEq

/-- `save` (lines 148–154): the document-index keys of `t2d` are stringified
by the JSON encoding. -/
def save (st : BM25 α) : SaveFile α :=
  { k1 := st.k1, b := st.b, alpha := st.alpha, avgdl := st.avgdl,
    t2d := st.t2d.map (fun p => (p.1, p.2.map (fun q => (toString q.1, q.2)))),
    idf := st.idf,
    doc_len := st.doc_len }

/-- `load` (lines 156–171): each stringified document-index key is converted
back with `int(i)` (line 162), which raises `ValueError` on a non-numeric
key; the remaining fields are installed verbatim on a `BM25([])` instance. -/
def load (f : SaveFile α) : Option (BM25 α) :=
  match mapOpt (fun p =>
      (mapOpt (fun q => (q.1.toNat?).map (fun i => (i, q.2))) p.2).map
        (fun ps => (p.1, ps))) f.t2d with
  | none => none
  | some t2d =>
    some { k1 := f.k1, b := f.b, alpha := f.alpha, avgdl := f.avgdl,
           t2d := t2d, idf := f.idf, doc_len := f.doc_len }

/-- The per-occurrence BM25 contribution as the spec states it (§4.2):
`idf * tf * (k1 + 1) / (tf + k1 * (1 − b + b * len / avgdl))` when the term
has an idf entry and a posting for the document, `0` otherwise.
This definition follows the spec's words and is compared with `get_score`. -/
def specTermScore (st : BM25 α) (index : ℕ) (token : String) : α :=
  match alookup token st.idf,
      (alookup token st.t2d).bind (fun ps => alookup index ps) with
  | some idf, some tf =>
    idf * (tf : α) * (st.k1 + 1) /
      ((tf : α) + st.k1 * (1 - st.b + st.b * (st.doc_len.getD index 0 : α) / st.avgdl))
  | _, _ => 0

/-- The spec's score (§4.2): the sum of the contributions of the query's
term occurrences. -/
def specScore (st : BM25 α) (query : List String) (index : ℕ) : α :=
  (query.map (specTermScore st index)).sum

/-- The state built from the corpus `[["a"], ["b"]]` with `k1 = 3/2`,
`b = 3/4`, `alpha = -1` and the constant-zero logarithm (both terms have
`df = 1`, `corpus_size = 2`, so their idf is exactly 0 for any logarithm). -/
def stAB : BM25 ℚ :=
  { k1 := 3 / 2, b := 3 / 4, alpha := -1, avgdl := 1,
    t2d := [("a", [(0, 1)]), ("b", [(1, 1)])],
    idf := [("a", 0), ("b", 0)], doc_len := [1, 1] }

/-- An arbitrary populated state used to exercise the save/load round trip
(including a two-digit document-index key). -/
def stSave : BM25 ℚ :=
  { k1 := 1, b := 2, alpha := 3, avgdl := 4,
    t2d := [("w", [(0, 1), (12, 3)])],
    idf := [("w", 5)], doc_len := [1, 2] }

/-- The value added to the running score by one query token inside
`scoreLoop` (0 when the token is skipped), with `numC` and `denC` the two
loop constants of `get_score`. -/
def termContrib (st : BM25 α) (index : ℕ) (numC denC : α) (token : String) :
    α :=
  match alookup token st.t2d with
  | none => 0
  | some postings =>
    match alookup index postings with
    | none => 0
    | some df =>
      match alookup token st.idf with
      | none => 0
      | some idf => idf * (df : α) * numC / ((df : α) + denC)

/-! ### Association-list lemmas -/

theorem alookup_cons {σ τ : Type} [DecidableEq σ] (k : σ) (p : σ × τ) (l) :
    alookup k (p :: l) = if p.1 = k then some p.2 else alookup k l := rfl

/-- Looking up a key-determined association list. -/
theorem alookup_map_key {σ τ : Type} [DecidableEq σ] (f : σ → τ) (w : σ) :
    ∀ l : List σ,
      alookup w (l.map fun x => (x, f x)) = if w ∈ l then some (f w) else none
  | [] => by simp [alookup]
  | x :: xs => by
    by_cases hx : x = w
    · subst hx
      simp [alookup]
    · simp only [List.map_cons, alookup_cons, if_neg hx, alookup_map_key f w xs,
        List.mem_cons]
      simp [Ne.symm hx]

/-- Looking up a filtered key-determined association list: since the value is
determined by the key, the filter either keeps every occurrence of the key or
drops them all. -/
theorem alookup_map_key_filter {σ τ : Type} [DecidableEq σ] (f : σ → τ)
    (c : σ × τ → Bool) (w : σ) :
    ∀ l : List σ,
      alookup w ((l.map fun x => (x, f x)).filter c) =
        if w ∈ l ∧ c (w, f w) then some (f w) else none
  | [] => by simp [alookup]
  | x :: xs => by
    rw [List.map_cons, List.filter_cons]
    by_cases hc : c (x, f x)
    · rw [if_pos hc]
      by_cases hx : x = w
      · subst hx
        simp [alookup_cons, hc]
      · rw [alookup_cons, if_neg hx, alookup_map_key_filter f c w xs]
        simp [List.mem_cons, Ne.symm hx]
    · rw [if_neg hc, alookup_map_key_filter f c w xs]
      by_cases hx : x = w
      · subst hx
        simp [hc]
      · simp [List.mem_cons, Ne.symm hx]

/-- Looking up a `filterMap`ped key-determined association list. -/
theorem alookup_map_key_filterMap {σ τ υ : Type} [DecidableEq σ] (f : σ → τ)
    (u : σ × τ → υ) (c : σ × τ → Prop) [DecidablePred c] (w : σ) :
    ∀ l : List σ,
      alookup w ((l.map fun x => (x, f x)).filterMap
          (fun p => if c p then some (p.1, u p) else none)) =
        if w ∈ l ∧ c (w, f w) then some (u (w, f w)) else none
  | [] => by simp [alookup]
  | x :: xs => by
    rw [List.map_cons, List.filterMap_cons]
    by_cases hc : c (x, f x)
    · rw [if_pos hc]
      by_cases hx : x = w
      · subst hx
        simp [alookup_cons, hc]
      · rw [alookup_cons, if_neg hx, alookup_map_key_filterMap f u c w xs]
        simp [List.mem_cons, Ne.symm hx]
    · rw [if_neg hc, alookup_map_key_filterMap f u c w xs]
      by_cases hx : x = w
      · subst hx
        simp [hc]
      · simp [List.mem_cons, Ne.symm hx]

/-- The same key sets survive the paired pruning of `t2d` (a `filter`) and the
population of `idf` (a `filterMap`), word by word. -/
theorem map_fst_filter_eq_map_fst_filterMap {σ τ υ : Type}
    (c : σ × τ → Prop) [DecidablePred c] (u : σ × τ → υ) :
    ∀ l : List (σ × τ),
      (l.filter (fun p => decide (c p))).map Prod.fst =
        (l.filterMap (fun p => if c p then some (p.1, u p) else none)).map
          Prod.fst
  | [] => rfl
  | p :: ps => by
    by_cases hc : c p
    · simp [List.filter_cons, List.filterMap_cons, hc,
        map_fst_filter_eq_map_fst_filterMap c u ps]
    · simp [List.filter_cons, List.filterMap_cons, hc,
        map_fst_filter_eq_map_fst_filterMap c u ps]

/-! ### Characterization of the constructed state -/

theorem mem_presentTerms {corpus : List (List String)} {w : String} :
    w ∈ presentTerms corpus ↔ w ∈ corpus.flatten := List.mem_dedup

theorem alookup_t2dRaw (corpus : List (List String)) (w : String) :
    alookup w (t2dRaw corpus) =
      if w ∈ corpus.flatten then some (docsOf corpus w) else none := by
  rw [t2dRaw, alookup_map_key]
  simp [mem_presentTerms]

theorem alookup_docsOf (corpus : List (List String)) (w : String) (i : ℕ) :
    alookup i (docsOf corpus w) =
      if i < corpus.length ∧ w ∈ corpus.getD i []
      then some ((corpus.getD i []).count w) else none := by
  rw [docsOf, alookup_map_key]
  simp [List.mem_filter]

/-- Document frequency of `w`: the number of documents containing it. -/
theorem docsOf_length (corpus : List (List String)) (w : String) :
    (docsOf corpus w).length =
      ((List.range corpus.length).filter
        (fun i => decide (w ∈ corpus.getD i []))).length := by
  simp [docsOf]

theorem init_nil (lg : α → α) (k1 b alpha : α) :
    init lg ([] : List (List String)) k1 b alpha =
      some { k1 := k1, b := b, alpha := alpha, avgdl := 0,
             t2d := [], idf := [], doc_len := [] } := rfl

/-- Dissection of a successful construction from a non-empty corpus. -/
theorem init_some_of_ne_nil {lg : α → α} {corpus : List (List String)}
    {k1 b alpha : α} {st : BM25 α} (hc : corpus ≠ [])
    (h : init lg corpus k1 b alpha = some st) :
    st.k1 = k1 ∧ st.b = b ∧ st.alpha = alpha ∧
    st.doc_len = corpus.map List.length ∧
    st.avgdl = ((corpus.map List.length).sum : α) / (corpus.length : α) ∧
    st.t2d = (t2dRaw corpus).filter
      (fun p => decide (alpha < idfVal lg corpus.length p.2.length)) ∧
    st.idf = (t2dRaw corpus).filterMap (fun p =>
      if alpha < idfVal lg corpus.length p.2.length
      then some (p.1, idfVal lg corpus.length p.2.length) else none) ∧
    st.idf ≠ [] := by
  rw [init, if_neg (by simpa [List.isEmpty_iff] using hc)] at h
  set idfL := (t2dRaw corpus).filterMap (fun p =>
    if alpha < idfVal lg corpus.length p.2.length
    then some (p.1, idfVal lg corpus.length p.2.length) else none) with hidfL
  by_cases hE : idfL.isEmpty
  · rw [if_pos hE] at h
    exact absurd h (by simp)
  · rw [if_neg hE] at h
    cases h
    refine ⟨rfl, rfl, rfl, rfl, by simp, rfl, rfl, ?_⟩
    exact fun hnil => hE (List.isEmpty_iff.mpr hnil)

theorem alookup_t2d_of_init {lg : α → α} {corpus : List (List String)}
    {k1 b alpha : α} {st : BM25 α} (hc : corpus ≠ [])
    (h : init lg corpus k1 b alpha = some st) (w : String) :
    alookup w st.t2d =
      if w ∈ corpus.flatten ∧
          alpha < idfVal lg corpus.length (docsOf corpus w).length
      then some (docsOf corpus w) else none := by
  obtain ⟨-, -, -, -, -, ht2d, -, -⟩ := init_some_of_ne_nil hc h
  rw [ht2d, t2dRaw, alookup_map_key_filter]
  simp [mem_presentTerms]

theorem alookup_idf_of_init {lg : α → α} {corpus : List (List String)}
    {k1 b alpha : α} {st : BM25 α} (hc : corpus ≠ [])
    (h : init lg corpus k1 b alpha = some st) (w : String) :
    alookup w st.idf =
      if w ∈ corpus.flatten ∧
          alpha < idfVal lg corpus.length (docsOf corpus w).length
      then some (idfVal lg corpus.length (docsOf corpus w).length) else none := by
  obtain ⟨-, -, -, -, -, -, hidf, -⟩ := init_some_of_ne_nil hc h
  rw [hidf, t2dRaw,
    alookup_map_key_filterMap (docsOf corpus)
      (fun p => idfVal lg corpus.length p.2.length)
      (fun p => alpha < idfVal lg corpus.length p.2.length) w]
  simp [mem_presentTerms]

/-- A successfully constructed non-empty index retained at least one term,
hence some document is non-empty and the average document length is
positive. -/
theorem avgdl_pos_of_init {lg : α → α} {corpus : List (List String)}
    {k1 b alpha : α} {st : BM25 α} (hc : corpus ≠ [])
    (h : init lg corpus k1 b alpha = some st) : 0 < st.avgdl := by
  obtain ⟨-, -, -, -, havg, -, hidf, hne⟩ := init_some_of_ne_nil hc h
  have hterm : ∃ w, w ∈ corpus.flatten := by
    rcases List.exists_mem_of_ne_nil _ (hidf ▸ hne) with ⟨p, hp⟩
    rcases List.mem_filterMap.mp hp with ⟨q, hq, hfq⟩
    rcases List.mem_map.mp (by simpa [t2dRaw] using hq) with ⟨w, hw, rfl⟩
    exact ⟨w, mem_presentTerms.mp hw⟩
  rcases hterm with ⟨w, hw⟩
  rcases List.mem_flatten.mp hw with ⟨doc, hdoc, hwdoc⟩
  have hsum : 0 < (corpus.map List.length).sum := by
    have hlen : doc.length ≤ (corpus.map List.length).sum :=
      List.single_le_sum (fun x _ => Nat.zero_le x) _
        (List.mem_map.mpr ⟨doc, hdoc, rfl⟩)
    exact lt_of_lt_of_le (List.length_pos.mpr (List.ne_nil_of_mem hwdoc)) hlen
  rw [havg]
  apply div_pos
  · exact_mod_cast Nat.cast_pos.mpr hsum
  · have : 0 < corpus.length := List.length_pos.mpr hc
    exact_mod_cast Nat.cast_pos.mpr this

/-! ### The score loop -/

theorem scoreLoop_nil (st : BM25 α) (index : ℕ) (numC denC acc : α) :
    scoreLoop st index numC denC [] acc = some acc := rfl

theorem scoreLoop_cons_skip1 {st : BM25 α} {index : ℕ} {numC denC : α}
    {token : String} (rest : List String) (acc : α)
    (h1 : alookup token st.t2d = none) :
    scoreLoop st index numC denC (token :: rest) acc =
      scoreLoop st index numC denC rest acc := by
  rw [scoreLoop, h1]

theorem scoreLoop_cons_skip2 {st : BM25 α} {index : ℕ} {numC denC : α}
    {token : String} {postings : List (ℕ × ℕ)} (rest : List String) (acc : α)
    (h1 : alookup token st.t2d = some postings)
    (h2 : alookup index postings = none) :
    scoreLoop st index numC denC (token :: rest) acc =
      scoreLoop st index numC denC rest acc := by
  rw [scoreLoop, h1]
  dsimp only
  rw [h2]

theorem scoreLoop_cons_keyerr {st : BM25 α} {index : ℕ} {numC denC : α}
    {token : String} {postings : List (ℕ × ℕ)} {df : ℕ} (rest : List String)
    (acc : α) (h1 : alookup token st.t2d = some postings)
    (h2 : alookup index postings = some df)
    (h3 : alookup token st.idf = none) :
    scoreLoop st index numC denC (token :: rest) acc = none := by
  rw [scoreLoop, h1]
  dsimp only
  rw [h2]
  dsimp only
  rw [h3]

theorem scoreLoop_cons_zdiv {st : BM25 α} {index : ℕ} {numC denC : α}
    {token : String} {postings : List (ℕ × ℕ)} {df : ℕ} {idf : α}
    (rest : List String) (acc : α)
    (h1 : alookup token st.t2d = some postings)
    (h2 : alookup index postings = some df)
    (h3 : alookup token st.idf = some idf) (hz : (df : α) + denC = 0) :
    scoreLoop st index numC denC (token :: rest) acc = none := by
  rw [scoreLoop, h1]
  dsimp only
  rw [h2]
  dsimp only
  rw [h3]
  dsimp only
  rw [safeDiv, if_pos hz]

theorem scoreLoop_cons_step {st : BM25 α} {index : ℕ} {numC denC : α}
    {token : String} {postings : List (ℕ × ℕ)} {df : ℕ} {idf : α}
    (rest : List String) (acc : α)
    (h1 : alookup token st.t2d = some postings)
    (h2 : alookup index postings = some df)
    (h3 : alookup token st.idf = some idf) (hz : (df : α) + denC ≠ 0) :
    scoreLoop st index numC denC (token :: rest) acc =
      scoreLoop st index numC denC rest
        (acc + idf * (df : α) * numC / ((df : α) + denC)) := by
  rw [scoreLoop, h1]
  dsimp only
  rw [h2]
  dsimp only
  rw [h3]
  dsimp only
  rw [safeDiv, if_neg hz]

theorem termContrib_skip1 {st : BM25 α} {index : ℕ} {numC denC : α}
    {token : String} (h1 : alookup token st.t2d = none) :
    termContrib st index numC denC token = 0 := by
  rw [termContrib, h1]

theorem termContrib_skip2 {st : BM25 α} {index : ℕ} {numC denC : α}
    {token : String} {postings : List (ℕ × ℕ)}
    (h1 : alookup token st.t2d = some postings)
    (h2 : alookup index postings = none) :
    termContrib st index numC denC token = 0 := by
  rw [termContrib, h1]
  dsimp only
  rw [h2]

theorem termContrib_skip3 {st : BM25 α} {index : ℕ} {numC denC : α}
    {token : String} {postings : List (ℕ × ℕ)} {df : ℕ}
    (h1 : alookup token st.t2d = some postings)
    (h2 : alookup index postings = some df)
    (h3 : alookup token st.idf = none) :
    termContrib st index numC denC token = 0 := by
  rw [termContrib, h1]
  dsimp only
  rw [h2]
  dsimp only
  rw [h3]

theorem termContrib_hit {st : BM25 α} {index : ℕ} {numC denC : α}
    {token : String} {postings : List (ℕ × ℕ)} {df : ℕ} {idf : α}
    (h1 : alookup token st.t2d = some postings)
    (h2 : alookup index postings = some df)
    (h3 : alookup token st.idf = some idf) :
    termContrib st index numC denC token =
      idf * (df : α) * numC / ((df : α) + denC) := by
  rw [termContrib, h1]
  dsimp only
  rw [h2]
  dsimp only
  rw [h3]

theorem scoreLoop_eq_some (st : BM25 α) (index : ℕ) (numC denC : α) :
    ∀ (q : List String) (acc v : α),
      scoreLoop st index numC denC q acc = some v →
      v = acc + (q.map (termContrib st index numC denC)).sum
  | [], acc, v => by
    intro h
    rw [scoreLoop_nil, Option.some_inj] at h
    simp [← h]
  | token :: rest, acc, v => by
    intro h
    rw [List.map_cons, List.sum_cons]
    rcases h1 : alookup token st.t2d with _ | postings
    · rw [scoreLoop_cons_skip1 rest acc h1] at h
      rw [scoreLoop_eq_some st index numC denC rest acc v h,
        termContrib_skip1 h1]
      ring
    · rcases h2 : alookup index postings with _ | df
      · rw [scoreLoop_cons_skip2 rest acc h1 h2] at h
        rw [scoreLoop_eq_some st index numC denC rest acc v h,
          termContrib_skip2 h1 h2]
        ring
      · rcases h3 : alookup token st.idf with _ | idf
        · rw [scoreLoop_cons_keyerr rest acc h1 h2 h3] at h
          exact absurd h (by simp)
        · by_cases hz : (df : α) + denC = 0
          · rw [scoreLoop_cons_zdiv rest acc h1 h2 h3 hz] at h
            exact absurd h (by simp)
          · rw [scoreLoop_cons_step rest acc h1 h2 h3 hz] at h
            rw [scoreLoop_eq_some st index numC denC rest _ v h,
              termContrib_hit h1 h2 h3]
            ring

theorem scoreLoop_isSome (st : BM25 α) (index : ℕ) (numC denC : α) :
    ∀ q : List String,
      (∀ tok ∈ q, ∀ ps, alookup tok st.t2d = some ps →
        ∀ df, alookup index ps = some df →
          (alookup tok st.idf).isSome ∧ (df : α) + denC ≠ 0) →
      ∀ acc : α, (scoreLoop st index numC denC q acc).isSome
  | [], _, acc => by simp [scoreLoop_nil]
  | token :: rest, hq, acc => by
    have hrest := scoreLoop_isSome st index numC denC rest
      (fun tok ht => hq tok (List.mem_cons_of_mem _ ht))
    rcases h1 : alookup token st.t2d with _ | postings
    · rw [scoreLoop_cons_skip1 rest acc h1]
      exact hrest acc
    · rcases h2 : alookup index postings with _ | df
      · rw [scoreLoop_cons_skip2 rest acc h1 h2]
        exact hrest acc
      · have hcur := hq token (List.mem_cons_self _ _) postings h1 df h2
        rcases h3 : alookup token st.idf with _ | idf
        · rw [h3] at hcur
          exact absurd hcur.1 (by simp)
        · rw [scoreLoop_cons_step rest acc h1 h2 h3 hcur.2]
          exact hrest _

theorem get_score_none_of_oob {st : BM25 α} {q : List String} {index : ℕ}
    (h : st.doc_len.get? index = none) : get_score st q index = none := by
  rw [get_score, h]

theorem get_score_none_of_avgdl0 {st : BM25 α} {q : List String} {index : ℕ}
    {len : ℕ} (h : st.doc_len.get? index = some len) (hz : st.avgdl = 0) :
    get_score st q index = none := by
  rw [get_score, h]
  dsimp only
  rw [safeDiv, if_pos hz]

theorem get_score_eq_loop {st : BM25 α} {q : List String} {index : ℕ}
    {len : ℕ} (h : st.doc_len.get? index = some len) (hz : st.avgdl ≠ 0) :
    get_score st q index =
      scoreLoop st index (st.k1 + 1)
        (st.k1 * (1 - st.b + st.b * (len : α) / st.avgdl)) q 0 := by
  rw [get_score, h]
  dsimp only
  rw [safeDiv, if_neg hz]

/-- Whatever value `get_score` returns is the accumulated sum of per-token
contributions. -/
theorem get_score_eq_sum {st : BM25 α} {q : List String} {index : ℕ} {v : α}
    (h : get_score st q index = some v) :
    v = (q.map (termContrib st index (st.k1 + 1)
      (st.k1 * (1 - st.b +
        st.b * (st.doc_len.getD index 0 : α) / st.avgdl)))).sum := by
  rcases hlen : st.doc_len.get? index with _ | len
  · rw [get_score_none_of_oob hlen] at h
    exact absurd h (by simp)
  · by_cases hz : st.avgdl = 0
    · rw [get_score_none_of_avgdl0 hlen hz] at h
      exact absurd h (by simp)
    · rw [get_score_eq_loop hlen hz] at h
      have hgetD : st.doc_len.getD index 0 = len := by
        rw [List.getD_eq_getElem?_getD, ← List.get?_eq_getElem?, hlen]
        rfl
      have := scoreLoop_eq_some st index (st.k1 + 1)
        (st.k1 * (1 - st.b + st.b * (len : α) / st.avgdl)) q 0 v h
      rw [this, hgetD, zero_add]

/-- `termContrib` with `get_score`'s loop constants is the spec's
per-occurrence contribution. -/
theorem termContrib_eq_specTermScore (st : BM25 α) (index : ℕ)
    (token : String) :
    termContrib st index (st.k1 + 1)
      (st.k1 * (1 - st.b + st.b * (st.doc_len.getD index 0 : α) / st.avgdl))
      token = specTermScore st index token := by
  rcases h1 : alookup token st.t2d with _ | postings
  · rw [termContrib_skip1 h1, specTermScore, h1]
    rcases alookup token st.idf with _ | idf <;> rfl
  · rcases h2 : alookup index postings with _ | df
    · rw [termContrib_skip2 h1 h2, specTermScore, h1]
      dsimp only [Option.bind]
      rw [h2]
      rcases alookup token st.idf with _ | idf <;> rfl
    · rcases h3 : alookup token st.idf with _ | idf
      · rw [termContrib_skip3 h1 h2 h3, specTermScore, h3, h1]
      · rw [termContrib_hit h1 h2 h3, specTermScore, h3, h1]
        dsimp only [Option.bind]
        rw [h2]

/-- Pruning consistency of a constructed state: `t2d` and `idf` carry the
same keys (in the same order, in this model). -/
theorem t2d_keys_eq_idf_keys {lg : α → α} {corpus : List (List String)}
    {k1 b alpha : α} {st : BM25 α}
    (h : init lg corpus k1 b alpha = some st) :
    st.t2d.map Prod.fst = st.idf.map Prod.fst := by
  by_cases hc : corpus = []
  · subst hc
    rw [init_nil, Option.some_inj] at h
    rw [← h]
    rfl
  · obtain ⟨-, -, -, -, -, ht2d, hidf, -⟩ := init_some_of_ne_nil hc h
    rw [ht2d, hidf]
    exact map_fst_filter_eq_map_fst_filterMap
      (fun p : String × List (ℕ × ℕ) => alpha < idfVal lg corpus.length p.2.length)
      (fun p => idfVal lg corpus.length p.2.length) _

/-! ### Decimal round-trip of document-index keys

`save` stringifies the integer keys of the inner posting dictionaries
(`json.dump`), `load` parses them back with `int(..)`; we prove that the
decimal encoding used by `toString : ℕ → String` is inverted exactly by
`String.toNat?`. -/

theorem digitChar_sub (k : ℕ) (hk : k < 10) :
    (Nat.digitChar k).toNat - '0'.toNat = k := by
  interval_cases k <;> rfl

theorem digitChar_isDigit (k : ℕ) (hk : k < 10) :
    (Nat.digitChar k).isDigit = true := by
  interval_cases k <;> rfl

theorem toDigitsCore_append (b : ℕ) :
    ∀ (fuel n : ℕ) (ds : List Char),
      Nat.toDigitsCore b fuel n ds = Nat.toDigitsCore b fuel n [] ++ ds
  | 0, _, _ => rfl
  | fuel + 1, n, ds => by
    by_cases hd : n / b = 0
    · simp [Nat.toDigitsCore, hd]
    · simp only [Nat.toDigitsCore, hd, if_false]
      rw [toDigitsCore_append b fuel (n / b) (Nat.digitChar (n % b) :: ds),
        toDigitsCore_append b fuel (n / b) [Nat.digitChar (n % b)]]
      simp

theorem toDigitsCore_foldl :
    ∀ (fuel n : ℕ), n < fuel → ∀ a : ℕ,
      (Nat.toDigitsCore 10 fuel n []).foldl
          (fun m c => m * 10 + (c.toNat - '0'.toNat)) a =
        a * 10 ^ (Nat.toDigitsCore 10 fuel n []).length + n
  | fuel + 1, n, _, a => by
    by_cases hd : n / 10 = 0
    · have hn : n < 10 := by omega
      simp only [Nat.toDigitsCore, hd, if_true, List.foldl_cons, List.foldl_nil,
        List.length_cons, List.length_nil]
      rw [digitChar_sub (n % 10) (Nat.mod_lt _ (by norm_num)),
        Nat.mod_eq_of_lt hn]
      ring
    · have hpos : 0 < n := by
        rcases Nat.eq_zero_or_pos n with h0 | h0
        · exact absurd (by simp [h0]) hd
        · exact h0
      have h10 : n / 10 < fuel := by
        have := Nat.div_lt_self hpos (by norm_num : (1:ℕ) < 10)
        omega
      simp only [Nat.toDigitsCore, hd, if_false]
      rw [toDigitsCore_append 10 fuel (n / 10) [Nat.digitChar (n % 10)],
        List.foldl_append, List.length_append,
        toDigitsCore_foldl fuel (n / 10) h10 a]
      simp only [List.foldl_cons, List.foldl_nil, List.length_cons,
        List.length_nil]
      rw [digitChar_sub (n % 10) (Nat.mod_lt _ (by norm_num))]
      have hmod : 10 * (n / 10) + n % 10 = n := Nat.div_add_mod n 10
      set L := (Nat.toDigitsCore 10 fuel (n / 10) []).length
      calc (a * 10 ^ L + n / 10) * 10 + n % 10
        = a * 10 ^ (L + 1) + (10 * (n / 10) + n % 10) := by ring
      _ = a * 10 ^ (L + 1 + 0) + n := by rw [hmod, Nat.add_zero]

theorem toDigitsCore_all_digits :
    ∀ (fuel n : ℕ) (c : Char), c ∈ Nat.toDigitsCore 10 fuel n [] →
      c.isDigit = true
  | 0, _, _ => by simp [Nat.toDigitsCore]
  | fuel + 1, n, c => by
    by_cases hd : n / 10 = 0
    · simp only [Nat.toDigitsCore, hd, if_true, List.mem_singleton]
      rintro rfl
      exact digitChar_isDigit _ (Nat.mod_lt _ (by norm_num))
    · simp only [Nat.toDigitsCore, hd, if_false]
      rw [toDigitsCore_append 10 fuel (n / 10) [Nat.digitChar (n % 10)]]
      intro hmem
      rcases List.mem_append.mp hmem with hm | hm
      · exact toDigitsCore_all_digits fuel (n / 10) c hm
      · rw [List.mem_singleton] at hm
        subst hm
        exact digitChar_isDigit _ (Nat.mod_lt _ (by norm_num))

theorem toDigitsCore_ne_nil (fuel n : ℕ) :
    Nat.toDigitsCore 10 (fuel + 1) n [] ≠ [] := by
  by_cases hd : n / 10 = 0
  · simp [Nat.toDigitsCore, hd]
  · simp only [Nat.toDigitsCore, hd, if_false]
    rw [toDigitsCore_append 10 fuel (n / 10) [Nat.digitChar (n % 10)]]
    simp

/-- The decimal rendering of a natural number parses back to itself:
`int(str(i)) == i`. -/
theorem toNat?_toString (n : ℕ) : (toString n).toNat? = some n := by
  show (Nat.repr n).toNat? = some n
  rw [Nat.repr, Nat.toDigits]
  set l := Nat.toDigitsCore 10 (n + 1) n [] with hl
  have hne : l ≠ [] := toDigitsCore_ne_nil n n
  have hNat : l.asString.isNat = true := by
    rw [String.isNat]
    refine Bool.and_eq_true_iff.mpr ⟨?_, ?_⟩
    · rw [Bool.not_eq_true']
      rw [Bool.eq_false_iff]
      intro hE
      exact hne (by
        have := (String.isEmpty_iff _).mp hE
        rwa [List.asString_eq, String.toList_empty] at this)
    · rw [String.all_eq]
      refine List.all_eq_true.mpr ?_
      intro c hc
      exact toDigitsCore_all_digits (n + 1) n c (by
        simpa [String.toList, ← hl] using hc)
  rw [String.toNat?, if_pos hNat, String.foldl_eq]
  have hdata : l.asString.1 = l := rfl
  rw [hdata, toDigitsCore_foldl (n + 1) n (Nat.lt_succ_self n) 0]
  simp

/-- `mapOpt` of a left inverse over a `map` restores the original list. -/
theorem mapOpt_map_some {σ τ : Type} (f : τ → Option σ) (g : σ → τ) :
    ∀ l : List σ, (∀ x ∈ l, f (g x) = some x) → mapOpt f (l.map g) = some l
  | [], _ => rfl
  | x :: xs, h => by
    rw [List.map_cons, mapOpt, h x (List.mem_cons_self _ _),
      mapOpt_map_some f g xs (fun y hy => h y (List.mem_cons_of_mem _ hy))]

/-- The save/load round trip restores the exact state: in particular the
stringified document-index keys come back as the same integers. -/
theorem load_save {β : Type} (st : BM25 β) : load (save st) = some st := by
  obtain ⟨k1, b, alpha, avgdl, t2d, idf, doc_len⟩ := st
  rw [save, load]
  dsimp only
  have houter :
      mapOpt (fun p =>
        (mapOpt (fun q => (q.1.toNat?).map (fun i => (i, q.2))) p.2).map
          (fun ps => (p.1, ps)))
        (t2d.map (fun p => (p.1, p.2.map (fun q => (toString q.1, q.2))))) =
        some t2d := by
    refine mapOpt_map_some _ _ t2d (fun p _ => ?_)
    have hinner :
        mapOpt (fun q => (q.1.toNat?).map (fun i => (i, q.2)))
          (p.2.map (fun q => (toString q.1, q.2))) = some p.2 := by
      refine mapOpt_map_some _ _ p.2 (fun q _ => ?_)
      rw [toNat?_toString q.1]
      rfl
    rw [hinner]
    rfl
  rw [houter]

/-! ### Evaluating the construction on concrete corpora -/

theorem filterMap_if_eq_map {σ υ : Type} (c : σ → Prop) [DecidablePred c]
    (g : σ → υ) :
    ∀ l : List σ, (∀ x ∈ l, c x) →
      l.filterMap (fun x => if c x then some (g x) else none) = l.map g
  | [], _ => rfl
  | x :: xs, h => by
    rw [List.filterMap_cons, if_pos (h x (List.mem_cons_self _ _)),
      List.map_cons,
      filterMap_if_eq_map c g xs (fun y hy => h y (List.mem_cons_of_mem _ hy))]

/-- When no term is pruned, `init` keeps the raw posting table and stores the
idf of every present term. -/
theorem init_eval {lg : α → α} {corpus : List (List String)} {k1 b alpha : α}
    (hne : corpus ≠ []) (hts : t2dRaw corpus ≠ [])
    (hall : ∀ p ∈ t2dRaw corpus,
      alpha < idfVal lg corpus.length p.2.length) :
    init lg corpus k1 b alpha =
      some { k1 := k1, b := b, alpha := alpha,
             avgdl := ((corpus.map List.length).sum : α) / (corpus.length : α),
             t2d := t2dRaw corpus,
             idf := (t2dRaw corpus).map
               (fun p => (p.1, idfVal lg corpus.length p.2.length)),
             doc_len := corpus.map List.length } := by
  rw [init, if_neg (by simpa [List.isEmpty_iff] using hne)]
  have hidf : (t2dRaw corpus).filterMap (fun p =>
      if alpha < idfVal lg corpus.length p.2.length
      then some (p.1, idfVal lg corpus.length p.2.length) else none) =
      (t2dRaw corpus).map
        (fun p => (p.1, idfVal lg corpus.length p.2.length)) :=
    filterMap_if_eq_map _ _ _ hall
  have hfil : (t2dRaw corpus).filter
      (fun p => decide (alpha < idfVal lg corpus.length p.2.length)) =
      t2dRaw corpus :=
    List.filter_eq_self.mpr (fun p hp => decide_eq_true (hall p hp))
  simp only [hidf, hfil]
  rw [if_neg (by
    simp only [List.isEmpty_iff, List.map_eq_nil_iff]
    exact hts)]
  rw [List.length_map]

/-- `idf` is exactly 0 whenever `corpus_size - df = df`, for any logarithm
function (both `math.log` arguments coincide). -/
theorem idfVal_eq_zero (lg : α → α) {n df : ℕ} (h : (n : α) - (df : α) = df) :
    idfVal lg n df = 0 := by
  rw [idfVal, h, sub_self]

/-- Construction on the corpus `[["a"], ["b"]]`, where both terms have
`df = 1` and `corpus_size = 2`. -/
theorem init_pair_eval (lg : α → α) (k1 b alpha : α)
    (h : alpha < idfVal lg 2 1) :
    init lg [["a"], ["b"]] k1 b alpha =
      some { k1 := k1, b := b, alpha := alpha, avgdl := 1,
             t2d := [("a", [(0, 1)]), ("b", [(1, 1)])],
             idf := [("a", idfVal lg 2 1), ("b", idfVal lg 2 1)],
             doc_len := [1, 1] } := by
  have ht : t2dRaw [["a"], ["b"]] = [("a", [(0, 1)]), ("b", [(1, 1)])] := by
    decide
  have hall : ∀ p ∈ t2dRaw [["a"], ["b"]],
      alpha < idfVal lg ([["a"], ["b"]] : List (List String)).length
        p.2.length := by
    rw [ht]
    intro p hp
    simp only [List.mem_cons, List.not_mem_nil, or_false] at hp
    rcases hp with rfl | rfl <;> simpa using h
  rw [init_eval (by simp) (by rw [ht]; simp) hall, ht]
  norm_num

/-- Construction on the corpus `[["a", "a"], ["b"]]`. -/
theorem init_pair2_eval (lg : α → α) (k1 b alpha : α)
    (h : alpha < idfVal lg 2 1) :
    init lg [["a", "a"], ["b"]] k1 b alpha =
      some { k1 := k1, b := b, alpha := alpha, avgdl := 3 / 2,
             t2d := [("a", [(0, 2)]), ("b", [(1, 1)])],
             idf := [("a", idfVal lg 2 1), ("b", idfVal lg 2 1)],
             doc_len := [2, 1] } := by
  have ht : t2dRaw [["a", "a"], ["b"]] = [("a", [(0, 2)]), ("b", [(1, 1)])] := by
    decide
  have hall : ∀ p ∈ t2dRaw [["a", "a"], ["b"]],
      alpha < idfVal lg ([["a", "a"], ["b"]] : List (List String)).length
        p.2.length := by
    rw [ht]
    intro p hp
    simp only [List.mem_cons, List.not_mem_nil, or_false] at hp
    rcases hp with rfl | rfl <;> simpa using h
  rw [init_eval (by simp) (by rw [ht]; simp) hall, ht]
  norm_num

/-- Construction on the one-document corpus `[["t"]]`. -/
theorem init_singleton_eval (lg : α → α) (k1 b alpha : α)
    (h : alpha < idfVal lg 1 1) :
    init lg [["t"]] k1 b alpha =
      some { k1 := k1, b := b, alpha := alpha, avgdl := 1,
             t2d := [("t", [(0, 1)])],
             idf := [("t", idfVal lg 1 1)], doc_len := [1] } := by
  have ht : t2dRaw [["t"]] = [("t", [(0, 1)])] := by decide
  have hall : ∀ p ∈ t2dRaw [["t"]],
      alpha < idfVal lg ([["t"]] : List (List String)).length p.2.length := by
    rw [ht]
    intro p hp
    simp only [List.mem_singleton] at hp
    subst hp
    simpa using h
  rw [init_eval (by simp) (by rw [ht]; simp) hall, ht]
  norm_num

/-- Construction on the one-document corpus `[["t", "t"]]`. -/
theorem init_singleton2_eval (lg : α → α) (k1 b alpha : α)
    (h : alpha < idfVal lg 1 1) :
    init lg [["t", "t"]] k1 b alpha =
      some { k1 := k1, b := b, alpha := alpha, avgdl := 2,
             t2d := [("t", [(0, 2)])],
             idf := [("t", idfVal lg 1 1)], doc_len := [2] } := by
  have ht : t2dRaw [["t", "t"]] = [("t", [(0, 2)])] := by decide
  have hall : ∀ p ∈ t2dRaw [["t", "t"]],
      alpha < idfVal lg ([["t", "t"]] : List (List String)).length
        p.2.length := by
    rw [ht]
    intro p hp
    simp only [List.mem_singleton] at hp
    subst hp
    simpa using h
  rw [init_eval (by simp) (by rw [ht]; simp) hall, ht]
  norm_num

/-- Construction on the four-document corpus `[["t","s"],["t"],["x"],["y"]]`
("t" has df 2, the others df 1). -/
theorem init_quad_eval (lg : α → α) (k1 b alpha : α)
    (h1 : alpha < idfVal lg 4 1) (h2 : alpha < idfVal lg 4 2) :
    init lg [["t", "s"], ["t"], ["x"], ["y"]] k1 b alpha =
      some { k1 := k1, b := b, alpha := alpha, avgdl := 5 / 4,
             t2d := [("s", [(0, 1)]), ("t", [(0, 1), (1, 1)]),
                     ("x", [(2, 1)]), ("y", [(3, 1)])],
             idf := [("s", idfVal lg 4 1), ("t", idfVal lg 4 2),
                     ("x", idfVal lg 4 1), ("y", idfVal lg 4 1)],
             doc_len := [2, 1, 1, 1] } := by
  have ht : t2dRaw [["t", "s"], ["t"], ["x"], ["y"]] =
      [("s", [(0, 1)]), ("t", [(0, 1), (1, 1)]),
       ("x", [(2, 1)]), ("y", [(3, 1)])] := by decide
  have hall : ∀ p ∈ t2dRaw [["t", "s"], ["t"], ["x"], ["y"]],
      alpha < idfVal lg
        ([["t", "s"], ["t"], ["x"], ["y"]] : List (List String)).length
        p.2.length := by
    rw [ht]
    intro p hp
    simp only [List.mem_cons, List.not_mem_nil, or_false] at hp
    rcases hp with rfl | rfl | rfl | rfl <;>
      first
      | simpa using h1
      | simpa using h2
  rw [init_eval (by simp) (by rw [ht]; simp) hall, ht]
  norm_num

/-- Construction on `[["t","s","t"],["t"],["x"],["y"]]` (one more "t" in
document 0 than `init_quad_eval`'s corpus; all document frequencies are
unchanged). -/
theorem init_quad2_eval (lg : α → α) (k1 b alpha : α)
    (h1 : alpha < idfVal lg 4 1) (h2 : alpha < idfVal lg 4 2) :
    init lg [["t", "s", "t"], ["t"], ["x"], ["y"]] k1 b alpha =
      some { k1 := k1, b := b, alpha := alpha, avgdl := 3 / 2,
             t2d := [("s", [(0, 1)]), ("t", [(0, 2), (1, 1)]),
                     ("x", [(2, 1)]), ("y", [(3, 1)])],
             idf := [("s", idfVal lg 4 1), ("t", idfVal lg 4 2),
                     ("x", idfVal lg 4 1), ("y", idfVal lg 4 1)],
             doc_len := [3, 1, 1, 1] } := by
  have ht : t2dRaw [["t", "s", "t"], ["t"], ["x"], ["y"]] =
      [("s", [(0, 1)]), ("t", [(0, 2), (1, 1)]),
       ("x", [(2, 1)]), ("y", [(3, 1)])] := by decide
  have hall : ∀ p ∈ t2dRaw [["t", "s", "t"], ["t"], ["x"], ["y"]],
      alpha < idfVal lg
        ([["t", "s", "t"], ["t"], ["x"], ["y"]] : List (List String)).length
        p.2.length := by
    rw [ht]
    intro p hp
    simp only [List.mem_cons, List.not_mem_nil, or_false] at hp
    rcases hp with rfl | rfl | rfl | rfl <;>
      first
      | simpa using h1
      | simpa using h2
  rw [init_eval (by simp) (by rw [ht]; simp) hall, ht]
  norm_num

/-- Construction on `[["a"]]` when the sole term is pruned: the computation
of `average_idf` divides by `len(self.idf) = 0` and raises. -/
theorem init_single_none (lg : α → α) (k1 b alpha : α)
    (h : idfVal lg 1 1 ≤ alpha) :
    init lg [["a"]] k1 b alpha = none := by
  have ht : t2dRaw [["a"]] = [("a", [(0, 1)])] := by decide
  have hc : ¬ alpha < idfVal lg 1 1 := not_lt.mpr h
  rw [init, if_neg (by simp)]
  norm_num [ht, List.filterMap_cons, hc]

/-- `stAB` really is the state built by the constructor on `[["a"], ["b"]]`
with the constant-zero logarithm. -/
theorem init_stAB :
    init (fun _ : ℚ => 0) [["a"], ["b"]] (3 / 2) (3 / 4) (-1) = some stAB := by
  have hz : idfVal (fun _ : ℚ => 0) 2 1 = 0 := idfVal_eq_zero _ (by norm_num)
  have h := init_pair_eval (fun _ : ℚ => 0) (3 / 2) (3 / 4) (-1)
    (by rw [hz]; norm_num)
  rw [hz] at h
  exact h

/-! ### Rebuilding after a term-frequency increase (C9 infrastructure) -/

theorem sum_set_ge : ∀ (l : List ℕ) (n a : ℕ), l.getD n 0 ≤ a →
    l.sum ≤ (l.set n a).sum
  | [], _, _, _ => le_refl _
  | x :: xs, 0, a, h => by
    simp only [List.set, List.sum_cons]
    have hx : x ≤ a := by simpa using h
    omega
  | x :: xs, n + 1, a, h => by
    simp only [List.set, List.sum_cons]
    have := sum_set_ge xs n a (by simpa using h)
    omega

theorem mem_flatten_iff_getD {c : List (List String)} {w : String} :
    w ∈ c.flatten ↔ ∃ i, i < c.length ∧ w ∈ c.getD i [] := by
  rw [List.mem_flatten]
  constructor
  · rintro ⟨l, hl, hw⟩
    rcases List.mem_iff_get.mp hl with ⟨⟨i, hi⟩, rfl⟩
    refine ⟨i, hi, ?_⟩
    rw [List.getD_eq_getElem?_getD, ← List.get?_eq_getElem?,
      List.get?_eq_get hi]
    exact hw
  · rintro ⟨i, hi, hw⟩
    refine ⟨c.getD i [], ?_, hw⟩
    rw [List.getD_eq_getElem?_getD, ← List.get?_eq_getElem?,
      List.get?_eq_get hi]
    exact List.get_mem c i hi

/-- The skipped-token score loop on a repeated single-token query. -/
theorem scoreLoop_replicate_skip {st : BM25 α} {index : ℕ} {numC denC : α}
    {t : String} (h1 : alookup t st.t2d = none) :
    ∀ (r : ℕ) (acc : α),
      scoreLoop st index numC denC (List.replicate r t) acc = some acc
  | 0, acc => rfl
  | r + 1, acc => by
    rw [List.replicate_succ, scoreLoop_cons_skip1 _ acc h1]
    exact scoreLoop_replicate_skip h1 r acc

/-- The score loop on a repeated single-token query adds the per-occurrence
contribution `r` times. -/
theorem scoreLoop_replicate_hit {st : BM25 α} {index : ℕ} {numC denC : α}
    {t : String} {postings : List (ℕ × ℕ)} {df : ℕ} {z : α}
    (h1 : alookup t st.t2d = some postings)
    (h2 : alookup index postings = some df)
    (h3 : alookup t st.idf = some z) (hz : (df : α) + denC ≠ 0) (r : ℕ) :
    ∀ acc : α,
      scoreLoop st index numC denC (List.replicate r t) acc =
        some (acc + (r : α) * (z * (df : α) * numC / ((df : α) + denC))) := by
  induction r with
  | zero =>
    intro acc
    rw [List.replicate_zero, scoreLoop_nil]
    norm_num
  | succ n ih =>
    intro acc
    rw [List.replicate_succ, scoreLoop_cons_step _ acc h1 h2 h3 hz, ih]
    congr 1
    push_cast
    ring

/-- The algebraic core of term-frequency monotonicity: raising `tf` and
`len` together by `m ≥ 0` (and `avgdl` by no more than keeps
`avgdl ≤ avgdl'`) cannot lower the per-occurrence BM25 contribution, as
long as `idf ≥ 0`, `k1 ≥ 0`, `0 ≤ b ≤ 1` and `tf ≤ len`. -/
theorem contrib_mono {idf k1 b avgdl avgdl' tfa lena ma : α}
    (hidf : 0 ≤ idf) (hk1 : 0 ≤ k1) (hb0 : 0 ≤ b) (hb1 : b ≤ 1)
    (havg : 0 < avgdl) (havg' : avgdl ≤ avgdl')
    (htf : 1 ≤ tfa) (hm : 0 ≤ ma) (htl : tfa ≤ lena) :
    idf * tfa * (k1 + 1) / (tfa + k1 * (1 - b + b * lena / avgdl)) ≤
      idf * (tfa + ma) * (k1 + 1) /
        ((tfa + ma) + k1 * (1 - b + b * (lena + ma) / avgdl')) := by
  have havg'pos : 0 < avgdl' := lt_of_lt_of_le havg havg'
  have hlen0 : 0 ≤ lena := le_trans (le_trans zero_le_one htf) htl
  set D := k1 * (1 - b + b * lena / avgdl) with hD
  set D' := k1 * (1 - b + b * (lena + ma) / avgdl') with hD'
  have hD0 : 0 ≤ D := by
    rw [hD]
    apply mul_nonneg hk1
    have := div_nonneg (mul_nonneg hb0 hlen0) havg.le
    linarith
  have hD'0 : 0 ≤ D' := by
    rw [hD']
    apply mul_nonneg hk1
    have := div_nonneg (mul_nonneg hb0 (by linarith : (0:α) ≤ lena + ma))
      havg'pos.le
    linarith
  have hden : 0 < tfa + D := by linarith
  have hden' : 0 < (tfa + ma) + D' := by linarith
  have hkey : tfa * D' ≤ (tfa + ma) * D := by
    have hA : tfa * (k1 * (1 - b)) ≤ (tfa + ma) * (k1 * (1 - b)) :=
      mul_le_mul_of_nonneg_right (by linarith)
        (mul_nonneg hk1 (by linarith))
    have h1 : (lena + ma) / avgdl' ≤ (lena + ma) / avgdl :=
      div_le_div_of_nonneg_left (by linarith) havg havg'
    have h2 : tfa * (lena + ma) ≤ (tfa + ma) * lena := by
      nlinarith [mul_le_mul_of_nonneg_left htl hm]
    have h3 : tfa * ((lena + ma) / avgdl') ≤ (tfa + ma) * (lena / avgdl) := by
      calc tfa * ((lena + ma) / avgdl')
          ≤ tfa * ((lena + ma) / avgdl) :=
            mul_le_mul_of_nonneg_left h1 (by linarith)
        _ = tfa * (lena + ma) / avgdl := by ring
        _ ≤ (tfa + ma) * lena / avgdl := (div_le_div_right havg).mpr h2
        _ = (tfa + ma) * (lena / avgdl) := by ring
    have h4 : tfa * (k1 * (b * ((lena + ma) / avgdl'))) ≤
        (tfa + ma) * (k1 * (b * (lena / avgdl))) := by
      have hkb : 0 ≤ k1 * b := mul_nonneg hk1 hb0
      calc tfa * (k1 * (b * ((lena + ma) / avgdl')))
          = (k1 * b) * (tfa * ((lena + ma) / avgdl')) := by ring
        _ ≤ (k1 * b) * ((tfa + ma) * (lena / avgdl)) :=
            mul_le_mul_of_nonneg_left h3 hkb
        _ = (tfa + ma) * (k1 * (b * (lena / avgdl))) := by ring
    rw [hD, hD']
    have hexp : tfa * (k1 * (1 - b + b * (lena + ma) / avgdl')) =
        tfa * (k1 * (1 - b)) + tfa * (k1 * (b * ((lena + ma) / avgdl'))) := by
      ring
    have hexp' : (tfa + ma) * (k1 * (1 - b + b * lena / avgdl)) =
        (tfa + ma) * (k1 * (1 - b)) +
          (tfa + ma) * (k1 * (b * (lena / avgdl))) := by
      ring
    rw [hexp, hexp']
    exact add_le_add hA h4
  rw [div_le_div_iff hden hden']
  have hnum : 0 ≤ idf * (k1 + 1) := mul_nonneg hidf (by linarith)
  nlinarith [mul_le_mul_of_nonneg_left hkey hnum]

/-- Rebuild invariance: how the posting/idf lookups, document lengths and
average length of `init` respond to appending `m` copies of a term `t`
(already present) to document `d`. -/
theorem rebuild_facts {lg : α → α} {corpus : List (List String)}
    {k1 b alpha : α} {st st' : BM25 α} {d m : ℕ} {t : String}
    (hd : d < corpus.length) (ht : t ∈ corpus.getD d [])
    (hinit : init lg corpus k1 b alpha = some st)
    (hinit' : init lg (corpus.set d (corpus.getD d [] ++ List.replicate m t))
      k1 b alpha = some st') :
    st.doc_len.get? d = some (corpus.getD d []).length ∧
    st'.doc_len.get? d = some ((corpus.getD d []).length + m) ∧
    st.avgdl ≤ st'.avgdl ∧
    (∀ w, (docsOf (corpus.set d (corpus.getD d [] ++ List.replicate m t)) w).length
      = (docsOf corpus w).length) ∧
    (∀ w, w ∈ (corpus.set d (corpus.getD d [] ++ List.replicate m t)).flatten
      ↔ w ∈ corpus.flatten) ∧
    ((corpus.set d (corpus.getD d [] ++ List.replicate m t)).getD d []).count t
      = (corpus.getD d []).count t + m := by
  have hc : corpus ≠ [] := by
    intro h
    rw [h] at hd
    simp at hd
  have hlen' : (corpus.set d (corpus.getD d [] ++ List.replicate m t)).length
      = corpus.length := List.length_set corpus _ _
  have hgd : corpus.getD d [] = corpus.get ⟨d, hd⟩ := by
    rw [List.getD_eq_getElem?_getD, ← List.get?_eq_getElem?,
      List.get?_eq_get hd]
    rfl
  have hc' : corpus.set d (corpus.getD d [] ++ List.replicate m t) ≠ [] := by
    intro h
    rw [h] at hlen'
    rw [← hlen'] at hd
    simp at hd
  have hdoc' :
      (corpus.set d (corpus.getD d [] ++ List.replicate m t)).getD d [] =
        corpus.getD d [] ++ List.replicate m t := by
    rw [List.getD_eq_getElem?_getD, ← List.get?_eq_getElem?,
      List.get?_set_eq_of_lt _ hd]
    rfl
  have hgetD : ∀ i, i ≠ d →
      (corpus.set d (corpus.getD d [] ++ List.replicate m t)).getD i [] =
        corpus.getD i [] := by
    intro i hi
    have h0 : (corpus.set d (corpus.getD d [] ++ List.replicate m t)).get? i
        = corpus.get? i := List.get?_set_ne _ _ (Ne.symm hi)
    rw [List.getD_eq_getElem?_getD, ← List.get?_eq_getElem?, h0,
      List.get?_eq_getElem?, ← List.getD_eq_getElem?_getD]
  have hmem : ∀ (w : String) (i : ℕ),
      w ∈ (corpus.set d (corpus.getD d [] ++ List.replicate m t)).getD i []
        ↔ w ∈ corpus.getD i [] := by
    intro w i
    by_cases hi : i = d
    · subst hi
      rw [hdoc', List.mem_append, List.mem_replicate]
      constructor
      · rintro (h | ⟨-, rfl⟩)
        · exact h
        · exact ht
      · exact Or.inl
    · rw [hgetD i hi]
  have hfil : ∀ w : String,
      (List.range (corpus.set d
          (corpus.getD d [] ++ List.replicate m t)).length).filter
        (fun i => decide
          (w ∈ (corpus.set d (corpus.getD d []
            ++ List.replicate m t)).getD i [])) =
      (List.range corpus.length).filter
        (fun i => decide (w ∈ corpus.getD i [])) := by
    intro w
    rw [hlen']
    refine List.filter_congr ?_
    intro i _
    exact decide_eq_decide.mpr (hmem w i)
  have hdfw : ∀ w,
      (docsOf (corpus.set d (corpus.getD d [] ++ List.replicate m t)) w).length
        = (docsOf corpus w).length := by
    intro w
    rw [docsOf_length, docsOf_length, hfil]
  refine ⟨?_, ?_, ?_, hdfw, ?_, ?_⟩
  · obtain ⟨-, -, -, hdl, -, -, -, -⟩ := init_some_of_ne_nil hc hinit
    rw [hdl, List.get?_map, List.get?_eq_get hd, hgd]
    rfl
  · obtain ⟨-, -, -, hdl', -, -, -, -⟩ := init_some_of_ne_nil hc' hinit'
    rw [hdl', List.get?_map, List.get?_set_eq_of_lt _ hd]
    simp
  · obtain ⟨-, -, -, -, havgdl, -, -, -⟩ := init_some_of_ne_nil hc hinit
    obtain ⟨-, -, -, -, havgdl', -, -, -⟩ := init_some_of_ne_nil hc' hinit'
    rw [havgdl, havgdl', hlen']
    have hNpos : (0 : α) < (corpus.length : α) := by
      exact_mod_cast Nat.cast_pos.mpr (List.length_pos.mpr hc)
    have hsum : (corpus.map List.length).sum ≤
        ((corpus.set d (corpus.getD d [] ++ List.replicate m t)).map
          List.length).sum := by
      rw [List.map_set]
      apply sum_set_ge
      have hg : (corpus.map List.length).getD d 0 =
          (corpus.getD d []).length := by
        rw [List.getD_eq_getElem?_getD, ← List.get?_eq_getElem?,
          List.get?_map, List.get?_eq_get hd, hgd]
        rfl
      rw [hg]
      simp
    have : ((corpus.map List.length).sum : α) ≤
        (((corpus.set d (corpus.getD d [] ++ List.replicate m t)).map
          List.length).sum : α) := by
      exact_mod_cast hsum
    exact (div_le_div_right hNpos).mpr this
  · intro w
    rw [mem_flatten_iff_getD, mem_flatten_iff_getD, hlen']
    exact exists_congr fun i => and_congr_right fun _ => hmem w i
  · rw [hdoc', List.count_append, List.count_replicate]
    simp

/-! ### Anatomy of `get_top_n` -/

theorem forall₂_of_mapOpt {σ τ : Type} {f : σ → Option τ} :
    ∀ {l : List σ} {l' : List τ}, mapOpt f l = some l' →
      List.Forall₂ (fun a b => f a = some b) l l'
  | [], l', h => by
    rw [mapOpt, Option.some_inj] at h
    rw [← h]
    exact List.Forall₂.nil
  | x :: xs, l', h => by
    rw [mapOpt] at h
    rcases hx : f x with _ | y
    · rw [hx] at h
      exact absurd h (by simp)
    · rw [hx] at h
      rcases hxs : mapOpt f xs with _ | ys
      · rw [hxs] at h
        exact absurd h (by simp)
      · rw [hxs] at h
        dsimp only at h
        rw [Option.some_inj] at h
        rw [← h]
        exact List.Forall₂.cons hx (forall₂_of_mapOpt hxs)

theorem scored_char_of_forall₂ {st : BM25 α} {q : List String}
    {cs : List ℕ} {scored : List (ℕ × α)}
    (hf : List.Forall₂
      (fun i p => (get_score st q i).map (fun s => (i, s)) = some p)
      cs scored) :
    scored.map Prod.fst = cs ∧
      ∀ p ∈ scored, get_score st q p.1 = some p.2 := by
  induction hf with
  | nil => exact ⟨rfl, by simp⟩
  | @cons a b as bs ha _ ih =>
    rcases Option.map_eq_some'.mp ha with ⟨s, hs, hb⟩
    subst hb
    refine ⟨?_, ?_⟩
    · rw [List.map_cons, ih.1]
    · intro p hp
      rcases List.mem_cons.mp hp with rfl | hp
      · exact hs
      · exact ih.2 p hp

theorem scored_char {st : BM25 α} {q : List String} {scored : List (ℕ × α)}
    (h : mapOpt (fun i => (get_score st q i).map (fun s => (i, s)))
      (candidates st q) = some scored) :
    scored.map Prod.fst = candidates st q ∧
      ∀ p ∈ scored, get_score st q p.1 = some p.2 :=
  scored_char_of_forall₂ (forall₂_of_mapOpt h)

/-- Full behaviour of a successful `get_top_n` call: the result is obtained
from a list of scored candidate pairs of length ≤ n, sorted by descending
score, with distinct candidate indices, every selected index belonging to
the candidate set and carrying its `get_score` value, and every candidate
left out scoring no more than any selected one. -/
theorem get_top_n_anatomy {δ : Type} {st : BM25 α} {q : List String}
    {documents : List δ} {n : ℕ} {res : List δ}
    (h : get_top_n st q documents n = some res) :
    ∃ pairs : List (ℕ × α),
      res.length ≤ n ∧
      List.Forall₂ (fun p d => documents.get? p.1 = some d) pairs res ∧
      (∀ p ∈ pairs, p.1 ∈ candidates st q ∧ get_score st q p.1 = some p.2) ∧
      pairs.Sorted scoreGE ∧
      (pairs.map Prod.fst).Nodup ∧
      (∀ j ∈ candidates st q, j ∉ pairs.map Prod.fst →
        ∀ sj, get_score st q j = some sj → ∀ p ∈ pairs, sj ≤ p.2) := by
  rw [get_top_n] at h
  by_cases hlen : st.corpus_size = documents.length
  swap
  · rw [if_neg hlen] at h
    exact absurd h (by simp)
  rw [if_pos hlen, get_top_n_core] at h
  by_cases hn : n = 0
  · rw [if_pos hn, Option.some_inj] at h
    refine ⟨[], ?_, ?_, by simp, by simp, by simp, by simp⟩
    · rw [← h]
      exact Nat.zero_le n
    · rw [← h]
      exact List.Forall₂.nil
  · rw [if_neg hn] at h
    rcases hsc : mapOpt (fun i => (get_score st q i).map (fun s => (i, s)))
        (candidates st q) with _ | scored
    · rw [hsc] at h
      exact absurd h (by simp)
    · rw [hsc] at h
      dsimp only at h
      have hchar := scored_char hsc
      have hperm : List.Perm (scored.insertionSort scoreGE) scored :=
        List.perm_insertionSort scoreGE scored
      have hsort : (scored.insertionSort scoreGE).Sorted scoreGE :=
        List.sorted_insertionSort scoreGE scored
      have h2 := forall₂_of_mapOpt h
      refine ⟨nlargest n scored, ?_, h2, ?_, ?_, ?_, ?_⟩
      · rw [← List.Forall₂.length_eq h2]
        exact List.length_take_le n _
      · intro p hp
        have hmem : p ∈ scored := by
          have h3 : p ∈ scored.insertionSort scoreGE :=
            (List.take_sublist n _).subset hp
          exact (List.mem_insertionSort scoreGE).mp h3
        refine ⟨?_, hchar.2 p hmem⟩
        rw [← hchar.1]
        exact List.mem_map_of_mem Prod.fst hmem
      · exact List.Pairwise.sublist (List.take_sublist n _) hsort
      · have hnodup : (scored.map Prod.fst).Nodup := by
          rw [hchar.1]
          exact List.nodup_dedup _
        have hnodup2 : ((scored.insertionSort scoreGE).map Prod.fst).Nodup :=
          ((hperm.map Prod.fst).nodup_iff).mpr hnodup
        rw [nlargest, List.map_take]
        exact List.Nodup.sublist (List.take_sublist n _) hnodup2
      · intro j hj hnot sj hsj p hp
        rw [← hchar.1] at hj
        rcases List.mem_map.mp hj with ⟨pj, hpj, hj1⟩
        have hpjs : get_score st q pj.1 = some pj.2 := hchar.2 pj hpj
        rw [hj1, hsj, Option.some_inj] at hpjs
        have hpj2 : pj ∈ scored.insertionSort scoreGE :=
          (List.mem_insertionSort scoreGE).mpr hpj
        rw [← List.take_append_drop n (scored.insertionSort scoreGE)]
          at hpj2
        rcases List.mem_append.mp hpj2 with hin | hin
        · exact absurd (hj1 ▸ List.mem_map_of_mem Prod.fst hin) hnot
        · have hsplit : List.Pairwise scoreGE
              (List.take n (List.insertionSort scoreGE scored) ++
                List.drop n (List.insertionSort scoreGE scored)) := by
            rw [List.take_append_drop]
            exact hsort
          have hps := (List.pairwise_append.mp hsplit).2.2
          have hrel := hps p hp pj hin
          rw [hpjs]
          exact hrel

/-! ### The claims -/

/-- **C3**: for every index `x`, loading what `save(x)` persisted yields an
index that scores identically to `x`: `load (save x) = some x` (the
stringified document-index keys are restored as the same integers), hence
`get_score` agrees on every query and document index. -/
theorem claim_C3 (st : BM25 α) :
    load (save st) = some st ∧
      ∀ st' query index, load (save st) = some st' →
        get_score st' query index = get_score st query index := by
  refine ⟨load_save st, fun st' query index h => ?_⟩
  rw [load_save st, Option.some_inj] at h
  rw [h]

/-- Witness for C3 at a concrete state with a two-digit posting key. -/
theorem claim_C3_witness :
    load (save stSave) = some stSave ∧
      get_score stSave ["w"] 1 = get_score stSave ["w"] 1 :=
  ⟨(claim_C3 stSave).1,
    (claim_C3 stSave).2 stSave ["w"] 1 (claim_C3 stSave).1⟩

/-- **C4**: in every constructed index a term has an entry in the IDF table
iff it has one in the term posting table (here: the key lists coincide), and
the property is preserved by the only state-producing operation after
construction, the save/load round trip (scoring functions do not modify the
state). -/
theorem claim_C4 {lg : α → α} {corpus : List (List String)} {k1 b alpha : α}
    {st : BM25 α} (hinit : init lg corpus k1 b alpha = some st) :
    st.t2d.map Prod.fst = st.idf.map Prod.fst ∧
      ∀ st', load (save st) = some st' →
        st'.t2d.map Prod.fst = st'.idf.map Prod.fst := by
  refine ⟨t2d_keys_eq_idf_keys hinit, fun st' h => ?_⟩
  rw [load_save st, Option.some_inj] at h
  rw [← h]
  exact t2d_keys_eq_idf_keys hinit

/-- Witness for C4 on the constructed state `stAB`, after a save/load
round trip. -/
theorem claim_C4_witness :
    stAB.t2d.map Prod.fst = stAB.idf.map Prod.fst :=
  (claim_C4 init_stAB).2 stAB (load_save stAB)

/-- **C7 (amended)**: when the corpus is non-empty and every term's computed
IDF is ≤ `alpha` (all terms pruned, empty IDF table), construction does NOT
complete: `average_idf = sum(self.idf.values())/len(self.idf)` divides by
zero, so `BM25(corpus, ..)` raises and no index (and hence no scoring) ever
exists.  (The claim said this completes as a valid state scoring 0.0;
the code errors instead.) -/
theorem claim_C7 {lg : α → α} (corpus : List (List String)) (k1 b alpha : α)
    (hc : corpus ≠ [])
    (hall : ∀ w ∈ corpus.flatten,
      idfVal lg corpus.length (docsOf corpus w).length ≤ alpha) :
    init lg corpus k1 b alpha = none := by
  rw [init, if_neg (by simpa [List.isEmpty_iff] using hc)]
  have hfm : (t2dRaw corpus).filterMap (fun p =>
      if alpha < idfVal lg corpus.length p.2.length
      then some (p.1, idfVal lg corpus.length p.2.length) else none) = [] := by
    refine List.filterMap_eq_nil_iff.mpr ?_
    intro p hp
    simp only [t2dRaw] at hp
    rcases List.mem_map.mp hp with ⟨w, hw, rfl⟩
    exact if_neg (not_lt.mpr (hall w (mem_presentTerms.mp hw)))
  simp only [hfm]
  rfl

/-- Counterexample to C7 as stated: on the corpus `[["a"]]` with the default
cutoff `alpha = 3` every computed IDF is ≤ alpha, and construction fails
(returns no state) instead of completing as a valid always-0 index. -/
theorem claim_C7_counterexample :
    (∀ w ∈ ([["a"]] : List (List String)).flatten,
        idfVal Real.log ([["a"]] : List (List String)).length
          (docsOf [["a"]] w).length ≤ (3 : ℝ)) ∧
      init Real.log [["a"]] (3 / 2) (3 / 4) (3 : ℝ) = none := by
  have hle : idfVal Real.log 1 1 ≤ (3 : ℝ) := by
    rw [idfVal]
    have h1 : Real.log ((1 : ℝ) - 1 + 1 / 2) ≤ Real.log ((1 : ℝ) + 1 / 2) := by
      apply Real.log_le_log <;> norm_num
    push_cast
    linarith [h1]
  constructor
  · intro w hw
    have hw' : w = "a" := by simpa using hw
    subst hw'
    have hd : (docsOf [["a"]] "a").length = 1 := by decide
    simpa [hd] using hle
  · exact init_single_none Real.log _ _ _ hle

/-- Witness for the amended C7: with the constant-zero logarithm and
`alpha = 0` every term of `[["b"]]` is pruned and construction fails. -/
theorem claim_C7_witness : init (fun _ : ℚ => 0) [["b"]] 1 1 0 = none :=
  claim_C7 [["b"]] 1 1 0 (by simp) (by
    intro w hw
    simp [idfVal])

/-- **C5**: during construction from a non-empty corpus, every term of the
raw posting table with document frequency `df` has computed IDF
`ln(corpus_size - df + 0.5) - ln(df + 0.5)` (`idfVal Real.log`, natural
logarithm), is retained in both tables with that stored weight exactly when
the value exceeds `alpha`, and is discarded from both tables otherwise. -/
theorem claim_C5 (corpus : List (List String)) (k1 b alpha : ℝ)
    (st : BM25 ℝ) (hc : corpus ≠ [])
    (hinit : init Real.log corpus k1 b alpha = some st)
    (w : String) (hw : w ∈ corpus.flatten) :
    ((docsOf corpus w).length = ((List.range corpus.length).filter
        (fun i => decide (w ∈ corpus.getD i []))).length) ∧
    (alpha < idfVal Real.log corpus.length (docsOf corpus w).length →
      alookup w st.idf =
          some (idfVal Real.log corpus.length (docsOf corpus w).length) ∧
        alookup w st.t2d = some (docsOf corpus w)) ∧
    (idfVal Real.log corpus.length (docsOf corpus w).length ≤ alpha →
      alookup w st.idf = none ∧ alookup w st.t2d = none) := by
  refine ⟨docsOf_length corpus w, fun hlt => ?_, fun hle => ?_⟩
  · rw [alookup_idf_of_init hc hinit w, if_pos ⟨hw, hlt⟩,
      alookup_t2d_of_init hc hinit w, if_pos ⟨hw, hlt⟩]
    exact ⟨rfl, rfl⟩
  · rw [alookup_idf_of_init hc hinit w,
      if_neg (fun hcond => absurd hcond.2 (not_lt.mpr hle)),
      alookup_t2d_of_init hc hinit w,
      if_neg (fun hcond => absurd hcond.2 (not_lt.mpr hle))]
    exact ⟨rfl, rfl⟩

/-- Witness for C5 on `init Real.log [["a"], ["b"]] (3/2) (3/4) (-1)`:
"a" has `df = 1`, idf `ln(1.5) - ln(1.5) = 0 > -1` and is retained in both
tables with that weight. -/
theorem claim_C5_witness :
    alookup "a" ([("a", idfVal Real.log 2 1), ("b", idfVal Real.log 2 1)]
        : List (String × ℝ)) = some (idfVal Real.log 2 1) ∧
      alookup "a" ([("a", [(0, 1)]), ("b", [(1, 1)])]
        : List (String × List (ℕ × ℕ))) = some [(0, 1)] := by
  have hz : idfVal Real.log 2 1 = 0 :=
    idfVal_eq_zero Real.log (by norm_num)
  have hinit := init_pair_eval Real.log (3 / 2) (3 / 4) (-1)
    (by rw [hz]; norm_num)
  have h := claim_C5 [["a"], ["b"]] (3 / 2) (3 / 4) (-1) _ (by simp) hinit
    "a" (by simp)
  have hd : docsOf [["a"], ["b"]] "a" = [(0, 1)] := by decide
  have hlt : (-1 : ℝ) < idfVal Real.log
      ([["a"], ["b"]] : List (List String)).length
      (docsOf [["a"], ["b"]] "a").length := by
    rw [hd]
    simp [hz]
  have h2 := h.2.1 hlt
  refine ⟨?_, ?_⟩
  · simpa [hd] using h2.1
  · simpa [hd] using h2.2

/-- **C8**: `get_top_n` fails immediately (assert) when `len(documents)`
differs from `corpus_size`, returning no partial result; when the lengths
agree the assert branch is unreachable and the call proceeds to the
selection body. -/
theorem claim_C8 {δ : Type} {lg : α → α} {corpus : List (List String)}
    {k1 b alpha : α} {st : BM25 α}
    (hinit : init lg corpus k1 b alpha = some st)
    (q : List String) (documents : List δ) (n : ℕ) :
    (st.corpus_size ≠ documents.length → get_top_n st q documents n = none) ∧
      (st.corpus_size = documents.length →
        get_top_n st q documents n = get_top_n_core st q documents n) := by
  constructor <;> intro h
  · rw [get_top_n, if_neg h]
  · rw [get_top_n, if_pos h]

/-- **C2**: a successful `get_top_n` on a constructed index with a parallel
documents list returns at most `n` entries, each `documents[i]` for an `i`
in the candidate set (the union of the query terms' posting keys), in
descending `get_score` order, and no candidate left out scores more than any
returned one. -/
theorem claim_C2 {δ : Type} {lg : α → α} {corpus : List (List String)}
    {k1 b alpha : α} {st : BM25 α}
    (hinit : init lg corpus k1 b alpha = some st)
    (q : List String) (documents : List δ) (n : ℕ) {res : List δ}
    (hlen : documents.length = st.corpus_size)
    (hres : get_top_n st q documents n = some res) :
    res.length ≤ n ∧
      ∃ pairs : List (ℕ × α),
        List.Forall₂ (fun p d => documents.get? p.1 = some d) pairs res ∧
        (∀ p ∈ pairs, p.1 ∈ candidates st q ∧ get_score st q p.1 = some p.2) ∧
        pairs.Sorted scoreGE ∧
        (∀ j ∈ candidates st q, j ∉ pairs.map Prod.fst →
          ∀ sj, get_score st q j = some sj → ∀ p ∈ pairs, sj ≤ p.2) := by
  obtain ⟨pairs, h1, h2, h3, h4, -, h6⟩ := get_top_n_anatomy hres
  exact ⟨h1, pairs, h2, h3, h4, h6⟩

/-- Witness for C2: `get_top_n stAB ["a", "b"] ["dx", "dy"] 1` returns one
document. -/
theorem claim_C2_witness : (["dx"] : List String).length ≤ 1 :=
  (claim_C2 init_stAB ["a", "b"] ["dx", "dy"] 1
    (by simp [stAB, BM25.corpus_size])
    (by
      simp [stAB, get_top_n, get_top_n_core, BM25.corpus_size, candidates,
        alookup, mapOpt, get_score, safeDiv, scoreLoop, nlargest,
        List.insertionSort, List.orderedInsert, scoreGE]
      norm_num [scoreGE, mapOpt])).1

/-- **C10**: the entries returned by `get_top_n` come from pairwise-distinct
corpus positions: the candidate indices are deduplicated (a Python `set`)
before selection, so `documents[i]` is returned at most once per `i` even
when several (or repeated) query terms have postings at `i`. -/
theorem claim_C10 {δ : Type} {lg : α → α} {corpus : List (List String)}
    {k1 b alpha : α} {st : BM25 α}
    (hinit : init lg corpus k1 b alpha = some st)
    (q : List String) (documents : List δ) (n : ℕ) {res : List δ}
    (hres : get_top_n st q documents n = some res) :
    ∃ pairs : List (ℕ × α),
      List.Forall₂ (fun p d => documents.get? p.1 = some d) pairs res ∧
      (pairs.map Prod.fst).Nodup := by
  obtain ⟨pairs, -, h2, -, -, h5, -⟩ := get_top_n_anatomy hres
  exact ⟨pairs, h2, h5⟩

/-- Witness for C10 with the repeated-term query `["b", "b", "a"]`: the
two selected documents come from distinct corpus positions. -/
theorem claim_C10_witness :
    ∃ pairs : List (ℕ × ℚ),
      List.Forall₂ (fun p d => (["dx", "dy"] : List String).get? p.1 = some d)
        pairs ["dy", "dx"] ∧
      (pairs.map Prod.fst).Nodup :=
  claim_C10 init_stAB ["b", "b", "a"] ["dx", "dy"] 2
    (by
      simp [stAB, get_top_n, get_top_n_core, BM25.corpus_size, candidates,
        alookup, mapOpt, get_score, safeDiv, scoreLoop, nlargest,
        List.insertionSort, List.orderedInsert, scoreGE]
      norm_num [scoreGE, mapOpt])

/-- **C9 (amended)**: holding all else fixed, appending occurrences of a
term `t` (already present in document `d`) to document `d` and rebuilding
never decreases `score(query, d)` for a query consisting of occurrences of
`t` only, provided `0 ≤ k1`, `0 ≤ b ≤ 1` and `t`'s idf is nonnegative.
(The original claim over arbitrary queries containing `t` is false: the
extra occurrences lengthen the document, which lowers every other query
term's contribution — see the counterexample.) -/
theorem claim_C9 {lg : α → α} {corpus : List (List String)} {k1 b alpha : α}
    {st st' : BM25 α} (d m r : ℕ) (t : String) (v v' : α)
    (hd : d < corpus.length) (ht : t ∈ corpus.getD d [])
    (hk1 : 0 ≤ k1) (hb0 : 0 ≤ b) (hb1 : b ≤ 1)
    (hidf : 0 ≤ idfVal lg corpus.length (docsOf corpus t).length)
    (hinit : init lg corpus k1 b alpha = some st)
    (hinit' : init lg (corpus.set d (corpus.getD d [] ++ List.replicate m t))
      k1 b alpha = some st')
    (hv : get_score st (List.replicate r t) d = some v)
    (hv' : get_score st' (List.replicate r t) d = some v') :
    v ≤ v' := by
  have hc : corpus ≠ [] := by
    intro h
    rw [h] at hd
    simp at hd
  have hlen' : (corpus.set d (corpus.getD d [] ++ List.replicate m t)).length
      = corpus.length := List.length_set corpus _ _
  have hc' : corpus.set d (corpus.getD d [] ++ List.replicate m t) ≠ [] := by
    intro h
    rw [h] at hlen'
    rw [← hlen'] at hd
    simp at hd
  obtain ⟨hget, hget', havgle, hdfw, hflat, hcnt⟩ :=
    rebuild_facts hd ht hinit hinit'
  have havg : 0 < st.avgdl := avgdl_pos_of_init hc hinit
  have havg' : 0 < st'.avgdl := avgdl_pos_of_init hc' hinit'
  obtain ⟨hK, hB, -, -, -, -, -, -⟩ := init_some_of_ne_nil hc hinit
  obtain ⟨hK', hB', -, -, -, -, -, -⟩ := init_some_of_ne_nil hc' hinit'
  by_cases hcond : t ∈ corpus.flatten ∧
      alpha < idfVal lg corpus.length (docsOf corpus t).length
  · -- t is retained in both indices
    have hcond' : t ∈ (corpus.set d
          (corpus.getD d [] ++ List.replicate m t)).flatten ∧
        alpha < idfVal lg
          (corpus.set d (corpus.getD d [] ++ List.replicate m t)).length
          (docsOf (corpus.set d (corpus.getD d [] ++ List.replicate m t))
            t).length :=
      ⟨(hflat t).mpr hcond.1, by rw [hlen', hdfw t]; exact hcond.2⟩
    have h1 : alookup t st.t2d = some (docsOf corpus t) := by
      rw [alookup_t2d_of_init hc hinit t, if_pos hcond]
    have h1' : alookup t st'.t2d = some (docsOf
        (corpus.set d (corpus.getD d [] ++ List.replicate m t)) t) := by
      rw [alookup_t2d_of_init hc' hinit' t, if_pos hcond']
    have h3 : alookup t st.idf =
        some (idfVal lg corpus.length (docsOf corpus t).length) := by
      rw [alookup_idf_of_init hc hinit t, if_pos hcond]
    have h3' : alookup t st'.idf =
        some (idfVal lg corpus.length (docsOf corpus t).length) := by
      rw [alookup_idf_of_init hc' hinit' t, if_pos hcond', hlen', hdfw t]
    have h2 : alookup d (docsOf corpus t) =
        some ((corpus.getD d []).count t) := by
      rw [alookup_docsOf, if_pos ⟨hd, ht⟩]
    have htfpos : 0 < (corpus.getD d []).count t := List.count_pos_iff.mpr ht
    have ht' : t ∈ (corpus.set d
        (corpus.getD d [] ++ List.replicate m t)).getD d [] := by
      apply List.count_pos_iff.mp
      rw [hcnt]
      omega
    have h2' : alookup d (docsOf
        (corpus.set d (corpus.getD d [] ++ List.replicate m t)) t) =
        some ((corpus.getD d []).count t + m) := by
      rw [alookup_docsOf, if_pos ⟨by rw [hlen']; exact hd, ht'⟩, hcnt]
    have htlen : (corpus.getD d []).count t ≤ (corpus.getD d []).length :=
      List.count_le_length t _
    -- positivity of both per-term denominators
    have hden : (0 : α) ≤ st.k1 * (1 - st.b +
        st.b * ((corpus.getD d []).length : α) / st.avgdl) := by
      rw [hK, hB]
      apply mul_nonneg hk1
      have := div_nonneg (mul_nonneg hb0
        (Nat.cast_nonneg (corpus.getD d []).length)) havg.le
      linarith
    have hden' : (0 : α) ≤ st'.k1 * (1 - st'.b +
        st'.b * (((corpus.getD d []).length + m : ℕ) : α) / st'.avgdl) := by
      rw [hK', hB']
      apply mul_nonneg hk1
      have := div_nonneg (mul_nonneg hb0
        (Nat.cast_nonneg ((corpus.getD d []).length + m))) havg'.le
      linarith
    have htfc : (0 : α) < ((corpus.getD d []).count t : α) := by
      exact_mod_cast htfpos
    have htfc' : (0 : α) < (((corpus.getD d []).count t + m : ℕ) : α) := by
      push_cast
      linarith
    have hz : ((corpus.getD d []).count t : α) + st.k1 * (1 - st.b +
        st.b * ((corpus.getD d []).length : α) / st.avgdl) ≠ 0 :=
      ne_of_gt (by linarith)
    have hz' : (((corpus.getD d []).count t + m : ℕ) : α) + st'.k1 *
        (1 - st'.b + st'.b * (((corpus.getD d []).length + m : ℕ) : α) /
          st'.avgdl) ≠ 0 :=
      ne_of_gt (by linarith)
    rw [get_score_eq_loop hget (ne_of_gt havg),
      scoreLoop_replicate_hit h1 h2 h3 hz r 0, Option.some_inj] at hv
    rw [get_score_eq_loop hget' (ne_of_gt havg'),
      scoreLoop_replicate_hit h1' h2' h3' hz' r 0, Option.some_inj] at hv'
    rw [← hv, ← hv', hK, hB, hK', hB']
    have h1le : (1 : α) ≤ ((corpus.getD d []).count t : α) := by
      exact_mod_cast htfpos
    have hmle : (0 : α) ≤ (m : α) := Nat.cast_nonneg m
    have htlle : ((corpus.getD d []).count t : α) ≤
        ((corpus.getD d []).length : α) := by
      exact_mod_cast htlen
    have hmono := contrib_mono hidf hk1 hb0 hb1 havg havgle h1le hmle htlle
    have hr : (0 : α) ≤ (r : α) := Nat.cast_nonneg r
    push_cast
    push_cast at hmono
    have := mul_le_mul_of_nonneg_left hmono hr
    linarith
  · -- t is pruned (or absent) in both indices: both scores are 0
    have h1 : alookup t st.t2d = none := by
      rw [alookup_t2d_of_init hc hinit t, if_neg hcond]
    have h1' : alookup t st'.t2d = none := by
      rw [alookup_t2d_of_init hc' hinit' t]
      refine if_neg (fun hcc => hcond ⟨(hflat t).mp hcc.1, ?_⟩)
      rw [← hlen', ← hdfw t]
      exact hcc.2
    rw [get_score_eq_loop hget (ne_of_gt havg),
      scoreLoop_replicate_skip h1 r 0, Option.some_inj] at hv
    rw [get_score_eq_loop hget' (ne_of_gt havg'),
      scoreLoop_replicate_skip h1' r 0, Option.some_inj] at hv'
    rw [← hv, ← hv']

/-- Counterexample to C9 as stated: on corpus `[["t","s"],["t"],["x"],["y"]]`
(k1 = 3/2, b = 3/4, alpha = -1), raising "t"'s frequency in document 0 by
one (rebuilding as `[["t","s","t"],...]`) STRICTLY LOWERS the score of
document 0 for the query `["t","s"]`, which contains "t": "t"'s idf is
`ln(2.5)-ln(2.5) = 0`, while the longer document depresses "s"'s
contribution from `idf_s * 100/127` to `idf_s * 20/29`. -/
theorem claim_C9_counterexample :
    ([["t", "s"], ["t"], ["x"], ["y"]] : List (List String)).set 0
        (([["t", "s"], ["t"], ["x"], ["y"]] : List (List String)).getD 0 []
          ++ List.replicate 1 "t") = [["t", "s", "t"], ["t"], ["x"], ["y"]] ∧
    init Real.log [["t", "s"], ["t"], ["x"], ["y"]] (3 / 2) (3 / 4) (-1) =
      some { k1 := 3 / 2, b := 3 / 4, alpha := -1, avgdl := 5 / 4,
             t2d := [("s", [(0, 1)]), ("t", [(0, 1), (1, 1)]),
                     ("x", [(2, 1)]), ("y", [(3, 1)])],
             idf := [("s", idfVal Real.log 4 1), ("t", 0),
                     ("x", idfVal Real.log 4 1), ("y", idfVal Real.log 4 1)],
             doc_len := [2, 1, 1, 1] } ∧
    init Real.log [["t", "s", "t"], ["t"], ["x"], ["y"]] (3 / 2) (3 / 4) (-1)
      = some { k1 := 3 / 2, b := 3 / 4, alpha := -1, avgdl := 3 / 2,
               t2d := [("s", [(0, 1)]), ("t", [(0, 2), (1, 1)]),
                       ("x", [(2, 1)]), ("y", [(3, 1)])],
               idf := [("s", idfVal Real.log 4 1), ("t", 0),
                       ("x", idfVal Real.log 4 1), ("y", idfVal Real.log 4 1)],
               doc_len := [3, 1, 1, 1] } ∧
    get_score ({ k1 := 3 / 2, b := 3 / 4, alpha := -1, avgdl := 5 / 4,
                 t2d := [("s", [(0, 1)]), ("t", [(0, 1), (1, 1)]),
                         ("x", [(2, 1)]), ("y", [(3, 1)])],
                 idf := [("s", idfVal Real.log 4 1), ("t", 0),
                         ("x", idfVal Real.log 4 1),
                         ("y", idfVal Real.log 4 1)],
                 doc_len := [2, 1, 1, 1] } : BM25 ℝ) ["t", "s"] 0 =
      some (idfVal Real.log 4 1 * (100 / 127)) ∧
    get_score ({ k1 := 3 / 2, b := 3 / 4, alpha := -1, avgdl := 3 / 2,
                 t2d := [("s", [(0, 1)]), ("t", [(0, 2), (1, 1)]),
                         ("x", [(2, 1)]), ("y", [(3, 1)])],
                 idf := [("s", idfVal Real.log 4 1), ("t", 0),
                         ("x", idfVal Real.log 4 1),
                         ("y", idfVal Real.log 4 1)],
                 doc_len := [3, 1, 1, 1] } : BM25 ℝ) ["t", "s"] 0 =
      some (idfVal Real.log 4 1 * (20 / 29)) ∧
    idfVal Real.log 4 1 * (20 / 29) < idfVal Real.log 4 1 * (100 / 127) := by
  have hz : idfVal Real.log 4 2 = 0 := idfVal_eq_zero _ (by norm_num)
  have hL : 0 < idfVal Real.log 4 1 := by
    rw [idfVal]
    have h47 : ((4 : ℕ) : ℝ) - ((1 : ℕ) : ℝ) + 1 / 2 = 7 / 2 := by norm_num
    have h13 : ((1 : ℕ) : ℝ) + 1 / 2 = 3 / 2 := by norm_num
    rw [h47, h13]
    have := Real.log_lt_log (by norm_num : (0 : ℝ) < 3 / 2)
      (by norm_num : (3 / 2 : ℝ) < 7 / 2)
    linarith
  have h1 : (-1 : ℝ) < idfVal Real.log 4 1 := by linarith
  have h2 : (-1 : ℝ) < idfVal Real.log 4 2 := by rw [hz]; norm_num
  have hq1 := init_quad_eval Real.log (3 / 2) (3 / 4) (-1) h1 h2
  rw [hz] at hq1
  have hq2 := init_quad2_eval Real.log (3 / 2) (3 / 4) (-1) h1 h2
  rw [hz] at hq2
  refine ⟨by decide, hq1, hq2, ?_, ?_, ?_⟩
  · simp [get_score, safeDiv, scoreLoop, alookup]
    norm_num
    ring_nf
  · simp [get_score, safeDiv, scoreLoop, alookup]
    norm_num
    ring_nf
  · exact mul_lt_mul_of_pos_left (by norm_num) hL

/-- Witness for the amended C9: corpus `[["t"]]` rebuilt as `[["t", "t"]]`
(one extra `"t"` in document 0), query `["t"]`: the score does not
decrease. -/
theorem claim_C9_witness :
    (0 : ℚ) ≤ idfVal (fun _ : ℚ => 0) ([["t"]] : List (List String)).length
        (docsOf [["t"]] "t").length ∧ (0 : ℚ) ≤ (0 : ℚ) := by
  have hz : idfVal (fun _ : ℚ => 0) 1 1 = 0 := by simp [idfVal]
  have hd1 : (docsOf [["t"]] "t").length = 1 := by decide
  have hidf : (0 : ℚ) ≤ idfVal (fun _ : ℚ => 0)
      ([["t"]] : List (List String)).length (docsOf [["t"]] "t").length := by
    simp [hd1, hz]
  have hinit := init_singleton_eval (fun _ : ℚ => 0) 1 1 (-1)
    (by rw [hz]; norm_num)
  rw [hz] at hinit
  have hinit'0 := init_singleton2_eval (fun _ : ℚ => 0) 1 1 (-1)
    (by rw [hz]; norm_num)
  rw [hz] at hinit'0
  refine ⟨hidf, ?_⟩
  have he : ([["t"]] : List (List String)).set 0
      (([["t"]] : List (List String)).getD 0 [] ++ List.replicate 1 "t") =
      [["t", "t"]] := by decide
  have hinit' : init (fun _ : ℚ => 0)
      (([["t"]] : List (List String)).set 0
        (([["t"]] : List (List String)).getD 0 [] ++ List.replicate 1 "t"))
      1 1 (-1) =
      some { k1 := 1, b := 1, alpha := -1, avgdl := 2,
             t2d := [("t", [(0, 2)])], idf := [("t", 0)],
             doc_len := [2] } := by
    rw [he]
    exact hinit'0
  refine claim_C9 0 1 1 "t" 0 0 (by norm_num) (by simp) (by norm_num)
    (by norm_num) (by norm_num) hidf hinit hinit' ?_ ?_
  · show get_score ({ k1 := 1, b := 1, alpha := -1, avgdl := 1,
                      t2d := [("t", [(0, 1)])], idf := [("t", 0)],
                      doc_len := [1] } : BM25 ℚ)
      (List.replicate 1 "t") 0 = some 0
    simp [get_score, safeDiv, scoreLoop, alookup]
  · show get_score ({ k1 := 1, b := 1, alpha := -1, avgdl := 2,
                      t2d := [("t", [(0, 2)])], idf := [("t", 0)],
                      doc_len := [2] } : BM25 ℚ)
      (List.replicate 1 "t") 0 = some 0
    simp [get_score, safeDiv, scoreLoop, alookup]
    norm_num

/-- **C1**: on a constructed index, any value returned by `get_score` for an
in-range document index is exactly the spec's sum over the query's term
occurrences of `idf * tf * (k1+1) / (tf + k1*(1 - b + b*doc_len[i]/avgdl))`,
occurrences without an IDF entry or posting contributing nothing; in
particular a query none of whose occurrences has a posting at the document
scores exactly 0. -/
theorem claim_C1 {lg : α → α} {corpus : List (List String)} {k1 b alpha : α}
    {st : BM25 α} (q : List String) (i : ℕ) (v : α)
    (hinit : init lg corpus k1 b alpha = some st) (hi : i < st.corpus_size)
    (hv : get_score st q i = some v) :
    v = specScore st q i ∧
      ((∀ tok ∈ q, (alookup tok st.t2d).bind (fun ps => alookup i ps) = none)
        → v = 0) := by
  have h1 : v = specScore st q i := by
    rw [get_score_eq_sum hv, specScore]
    have hfun : termContrib st i (st.k1 + 1)
        (st.k1 * (1 - st.b + st.b * (st.doc_len.getD i 0 : α) / st.avgdl)) =
        specTermScore st i :=
      funext (fun tok => termContrib_eq_specTermScore st i tok)
    rw [hfun]
  refine ⟨h1, fun hall => ?_⟩
  rw [h1, specScore]
  apply List.sum_eq_zero
  intro x hx
  rcases List.mem_map.mp hx with ⟨tok, htok, rfl⟩
  rcases hidf : alookup tok st.idf with _ | idf
  · rw [specTermScore, hidf, hall tok htok]
  · rw [specTermScore, hidf, hall tok htok]

/-- Witness for C1 on `stAB`: the query `["a", "c"]` scores 0 at document 0
("a" has idf 0 there, "c" is not indexed), matching the spec sum. -/
theorem claim_C1_witness : (0 : ℚ) = specScore stAB ["a", "c"] 0 :=
  (claim_C1 ["a", "c"] 0 0 init_stAB
    (by norm_num [stAB, BM25.corpus_size])
    (by simp [stAB, get_score, safeDiv, scoreLoop, alookup]; norm_num)).1

/-- **C6 (amended)**: on an index constructed from a non-empty corpus with
`0 ≤ k1` and `0 ≤ b ≤ 1`, `get_score` returns a value for every query and
in-range document index.  (The original claim over all parameters is false:
a negative `k1` can zero the per-term denominator, a `ZeroDivisionError`;
and a corpus all of whose documents are empty never yields a constructed
index because construction itself fails — see C7.) -/
theorem claim_C6 {lg : α → α} {corpus : List (List String)} {k1 b alpha : α}
    {st : BM25 α} (q : List String) (i : ℕ)
    (hinit : init lg corpus k1 b alpha = some st) (hi : i < st.corpus_size)
    (hk1 : 0 ≤ k1) (hb0 : 0 ≤ b) (hb1 : b ≤ 1) :
    (get_score st q i).isSome := by
  by_cases hc : corpus = []
  · subst hc
    rw [init_nil, Option.some_inj] at hinit
    rw [← hinit] at hi
    simp [BM25.corpus_size] at hi
  · obtain ⟨hK, hB, -, -, -, -, -, -⟩ := init_some_of_ne_nil hc hinit
    have havg := avgdl_pos_of_init hc hinit
    have hi' : i < st.doc_len.length := hi
    rw [get_score_eq_loop (List.get?_eq_get hi') (ne_of_gt havg)]
    apply scoreLoop_isSome
    intro tok htok ps hps df hdf
    rw [alookup_t2d_of_init hc hinit tok] at hps
    by_cases hcond : tok ∈ corpus.flatten ∧
        alpha < idfVal lg corpus.length (docsOf corpus tok).length
    · rw [if_pos hcond, Option.some_inj] at hps
      subst hps
      refine ⟨?_, ?_⟩
      · rw [alookup_idf_of_init hc hinit tok, if_pos hcond]
        rfl
      · rw [alookup_docsOf] at hdf
        by_cases hd : i < corpus.length ∧ tok ∈ corpus.getD i []
        · rw [if_pos hd, Option.some_inj] at hdf
          subst hdf
          have hdfpos : 0 < (corpus.getD i []).count tok :=
            List.count_pos_iff.mpr hd.2
          have hden : (0 : α) ≤ st.k1 * (1 - st.b +
              st.b * ((st.doc_len.get ⟨i, hi'⟩ : ℕ) : α) / st.avgdl) := by
            rw [hK, hB]
            apply mul_nonneg hk1
            have h1 : (0 : α) ≤
                b * ((st.doc_len.get ⟨i, hi'⟩ : ℕ) : α) / st.avgdl :=
              div_nonneg (mul_nonneg hb0 (Nat.cast_nonneg _))
                (le_of_lt havg)
            linarith
          have hpos : (0 : α) < ((corpus.getD i []).count tok : α) := by
            exact_mod_cast hdfpos
          exact ne_of_gt (by linarith)
        · rw [if_neg hd] at hdf
          exact absurd hdf (by simp)
    · rw [if_neg hcond] at hps
      exact absurd hps (by simp)

/-- Counterexample to C6 as stated: the index constructed (successfully, by
`math.log`) from `[["a", "a"], ["b"]]` with `k1 = -2`, `b = 0`, `alpha = -1`
makes `get_score(["a"], 0)` divide by `tf + k1*(1-b+b*len/avgdl) = 2-2 = 0`:
the call raises instead of returning a value. -/
theorem claim_C6_counterexample :
    init Real.log [["a", "a"], ["b"]] (-2 : ℝ) 0 (-1) =
        some { k1 := -2, b := 0, alpha := -1, avgdl := 3 / 2,
               t2d := [("a", [(0, 2)]), ("b", [(1, 1)])],
               idf := [("a", 0), ("b", 0)], doc_len := [2, 1] } ∧
      get_score ({ k1 := -2, b := 0, alpha := -1, avgdl := 3 / 2,
                   t2d := [("a", [(0, 2)]), ("b", [(1, 1)])],
                   idf := [("a", 0), ("b", 0)],
                   doc_len := [2, 1] } : BM25 ℝ)
        ["a"] 0 = none := by
  have hz : idfVal Real.log 2 1 = 0 := idfVal_eq_zero _ (by norm_num)
  constructor
  · have h := init_pair2_eval Real.log (-2) 0 (-1) (by rw [hz]; norm_num)
    rw [hz] at h
    exact h
  · simp [get_score, safeDiv, scoreLoop, alookup]

/-- Witness for the amended C6 on `stAB` (parameters `k1 = 3/2`,
`b = 3/4` in range). -/
theorem claim_C6_witness : (get_score stAB ["b", "q"] 1).isSome :=
  claim_C6 ["b", "q"] 1 init_stAB (by norm_num [stAB, BM25.corpus_size])
    (by norm_num) (by norm_num) (by norm_num)

/-- Witness for C8 on `stAB` (corpus size 2): one document too few fails,
matching lengths run the selection body. -/
theorem claim_C8_witness :
    get_top_n stAB ["a"] ["dx"] 5 = none ∧
      get_top_n stAB ["a"] ["dx", "dy"] 5 =
        get_top_n_core stAB ["a"] ["dx", "dy"] 5 :=
  ⟨(claim_C8 init_stAB ["a"] ["dx"] 5).1 (by simp [stAB, BM25.corpus_size]),
    (claim_C8 init_stAB ["a"] ["dx", "dy"] 5).2
      (by simp [stAB, BM25.corpus_size])⟩

end FastBM25
